import Mathlib

/-!
# Verification of the 19box jukebox session core

A shallow embedding, in Lean 4, of the components of the 19box repository that
the specification's claims are about:

* the filter chain and its concrete filters (`internal/app/filter`),
* the listener session and registry (`internal/domain/listener`, registry),
* the session state machine (`internal/app/session/state`, session manager),
* the playback controller (`internal/app/playback`),
* the notification manager and the subscription protocol
  (`internal/app/notification`, the Connect listener service).

Go `time.Time` and `time.Duration` values are embedded as `Int` (nanoseconds);
`time.Time.After` becomes `>` on `Int`, `Add` becomes `+`.  Go slices become
`List`s, `nil`-able pointers become `Option`, and every stateful method becomes
a pure function from the receiver state (plus the values its injected
callbacks / clock reads would return) to the new state and its outputs.

The file is laid out as definitions first (the embedding), then theorems.
-/

set_option maxRecDepth 8000

namespace Jukebox

/-! ## filter.Result (src/unnamed/part_005)

`Result` is a pair of an accepted flag and a code; `Accept()` and
`Reject(code)` are the two constructors used by every filter. -/

/-- Embeds `filter.Result`: `{Accepted bool; Code string}`. -/
structure FResult where
  accepted : Bool
  code : String
deriving DecidableEq, Repr

/-- Embeds `filter.Accept()`. -/
def FResult.acceptR : FResult := ⟨true, ""⟩

/-- Embeds `filter.Reject(code)`. -/
def FResult.rejectR (code : String) : FResult := ⟨false, code⟩

/-! ## AcceptanceDoneFilter (src/internal/app/filter/acceptance_done.go)

`Check` reads six injected callbacks (accepting flag, optional end time,
ending duration, queue duration, current remaining, and the clock); we embed
the values those callbacks return as a record of inputs. -/

/-- The values returned by the six callbacks `AcceptanceDoneFilter.Check`
consults: `isAccepting()`, `getEndTime()`, `getEndingDur()`,
`getQueueDuration()`, `getCurrentRemain()`, `getNow()`. -/
structure AcceptanceEnv where
  isAccepting : Bool
  endTime : Option Int
  endingDur : Int
  queueDuration : Int
  currentRemain : Int
  now : Int
deriving DecidableEq, Repr

/-- Embeds `AcceptanceDoneFilter.Check` (acceptance_done.go lines 62-96):
reject `acceptance_done` when not accepting; when an end time is set, compute
`deadline = endTime - endingDuration`, reject `time_limit_exceeded` when
`now.After(deadline)`, or when
`playbackStartTime = now + currentRemaining + queueDuration` satisfies
`playbackStartTime.After(deadline) || playbackStartTime.Equal(deadline)`;
otherwise accept. -/
def acceptanceDoneCheck (e : AcceptanceEnv) : FResult :=
  if !e.isAccepting then FResult.rejectR "acceptance_done"
  else
    match e.endTime with
    | none => FResult.acceptR
    | some endT =>
      let deadline := endT - e.endingDur
      if e.now > deadline then FResult.rejectR "time_limit_exceeded"
      else
        let playbackStartTime := e.now + e.currentRemain + e.queueDuration
        if playbackStartTime > deadline ∨ playbackStartTime = deadline then
          FResult.rejectR "time_limit_exceeded"
        else FResult.acceptR

/-! ## Listener sessions (src/unnamed/part_014, package listener)

`PendingTracks` is a Go `int`; we embed it as `Int` so that the invariant
`pending_count ≥ 0` is a real statement about the embedded code. -/

/-- Embeds `listener.Session` (times are `Int` nanoseconds). -/
structure ListenerSession where
  id : String
  displayName : String
  externalUserID : String
  pendingTracks : Int
  isKicked : Bool
  joinedAt : Int
  vipStatus : Bool
  requestQuota : Int
  totalRequests : Int
  lastRequestAt : Option Int
deriving DecidableEq, Repr

/-- Embeds `listener.NewSession` (`time.Now()` passed in as `now`). -/
def newListenerSession (id displayName externalUserID : String) (isVIP : Bool)
    (now : Int) : ListenerSession :=
  { id := id, displayName := displayName, externalUserID := externalUserID,
    pendingTracks := 0, isKicked := false, joinedAt := now,
    vipStatus := isVIP, requestQuota := 0, totalRequests := 0,
    lastRequestAt := none }

/-- Embeds `Session.IncrementPendingTracks` (`time.Now()` passed in as `now`). -/
def incrementPendingTracks (s : ListenerSession) (now : Int) : ListenerSession :=
  { s with pendingTracks := s.pendingTracks + 1,
           totalRequests := s.totalRequests + 1,
           lastRequestAt := some now }

/-- Embeds `Session.DecrementPendingTracks`: decrements only when
`PendingTracks > 0`. -/
def decrementPendingTracks (s : ListenerSession) : ListenerSession :=
  if s.pendingTracks > 0 then { s with pendingTracks := s.pendingTracks - 1 }
  else s

/-- A sequence of pending-count operations on one listener session. -/
inductive PendingOp where
  | inc (now : Int)
  | dec
deriving DecidableEq, Repr

/-- Applies one pending-count operation. -/
def applyPendingOp (s : ListenerSession) : PendingOp → ListenerSession
  | .inc now => incrementPendingTracks s now
  | .dec => decrementPendingTracks s

/-- Applies a sequence of pending-count operations, first one first. -/
def applyPendingOps (s : ListenerSession) : List PendingOp → ListenerSession
  | [] => s
  | op :: rest => applyPendingOps (applyPendingOp s op) rest

/-! ## notification.Manager sequence counter
(src/internal/app/notification/manager.go)

`NextSequenceNo` (lines 53-59) and the allocation step at the head of
`Broadcast` (lines 70-78) both increment the one `sequenceNo` counter under
the one `sequenceNoMu` lock and return the incremented value.  The lock
serializes the allocations, so a process execution is a list of allocation
events applied to the counter in some order. -/

/-- Embeds `Manager.NextSequenceNo`: increments the shared counter and
returns `(assigned number, new counter)`. -/
def nextSequenceNo (c : Nat) : Nat × Nat := (c + 1, c + 1)

/-- Embeds the sequence-number allocation at the head of `Manager.Broadcast`
(`m.sequenceNo++; currentSequenceNo := m.sequenceNo` under `sequenceNoMu`):
the same increment of the same shared counter. -/
def broadcastSeqNoAlloc (c : Nat) : Nat × Nat := (c + 1, c + 1)

/-- Which code path drew a number from the shared counter. -/
inductive SeqAllocKind where
  | subscribeAlloc   -- NextSequenceNo, called at subscription time
  | broadcastAlloc   -- Broadcast
deriving DecidableEq, Repr

/-- One allocation from the shared counter, by either code path. -/
def seqAllocStep (c : Nat) : SeqAllocKind → Nat × Nat
  | .subscribeAlloc => nextSequenceNo c
  | .broadcastAlloc => broadcastSeqNoAlloc c

/-- Runs a serialized list of allocations against the shared counter,
returning the assigned sequence numbers in allocation order. -/
def seqAllocRun (c : Nat) : List SeqAllocKind → List Nat
  | [] => []
  | k :: rest => (seqAllocStep c k).1 :: seqAllocRun (seqAllocStep c k).2 rest

/-! ## Session state machine (src/internal/app/session/state/types.go and
the session Manager in the same file, package session)

The state manager holds `phase` and `accepting`; the session manager's
operations (`Start`, `Stop`, `StopImmediate`, `transitionToEnding`,
`onQueueEmpty`/`terminateSession`) mutate them under `m.mu`.  We embed each
operation as the atomic transition it performs on these two fields, following
its guards in the code.  `start` models the successful completion path of
`Manager.Start` (playlist creation succeeding): it ends with
`SetPhase(PhaseActive); StartAccepting()` and has no phase guard. -/

/-- Embeds `state.Phase`. -/
inductive SPhase where
  | waiting
  | active
  | ending
  | terminated
deriving DecidableEq, Repr

/-- The numeric index of a phase in the order waiting < active < ending <
terminated (matching the iota order of the Go constants). -/
def SPhase.idx : SPhase → Nat
  | .waiting => 0
  | .active => 1
  | .ending => 2
  | .terminated => 3

/-- Embeds `state.AcceptingState`. -/
inductive AcceptingState where
  | notAccepting
  | accepting
deriving DecidableEq, Repr

/-- The two fields of `state.Manager` the lifecycle operations touch. -/
structure SessState where
  phase : SPhase
  accepting : AcceptingState
deriving DecidableEq, Repr

/-- Embeds `state.New`: phase waiting, not accepting. -/
def sessStateNew : SessState := ⟨.waiting, .notAccepting⟩

/-- The session-manager operations that drive the lifecycle. -/
inductive SessionOp where
  | start               -- Manager.Start (successful path)
  | stop                -- Manager.Stop
  | stopImmediate       -- Manager.StopImmediate
  | toEnding            -- Manager.transitionToEnding (deadline checker / Stop)
  | onQueueEmpty        -- Manager.onQueueEmpty (queue-empty termination)
deriving DecidableEq, Repr

/-- Embeds `Manager.transitionToEnding` (types.go lines 459-514) restricted to
the state fields: no-op unless phase is active; otherwise `StopAccepting()`
then `SetPhase(PhaseEnding)`. -/
def transitionToEnding (s : SessState) : SessState :=
  if s.phase ≠ SPhase.active then s
  else { phase := .ending, accepting := .notAccepting }

/-- Embeds `Manager.terminateSession`: no-op when already terminated, else
`SetPhase(PhaseTerminated); StopAccepting()`. -/
def terminateSession (s : SessState) : SessState :=
  if s.phase = SPhase.terminated then s
  else { phase := .terminated, accepting := .notAccepting }

/-- Embeds one session-manager operation as its transition on the state
fields, following the phase guards in types.go:

* `Start` (lines 214-354, success path): `SetPhase(PhaseActive);
  StartAccepting()` with no phase guard;
* `Stop` (lines 357-391): no-op when terminated or ending; from waiting,
  `SetPhase(PhaseTerminated)` (accepting untouched); from active,
  `transitionToEnding`;
* `StopImmediate` (lines 394-456): no-op when terminated or ending; from
  waiting, `SetPhase(PhaseTerminated)`; from active,
  `SetPhase(PhaseTerminated); StopAccepting()`;
* `transitionToEnding` as above (deadline checker and admin stop);
* `onQueueEmpty` (lines 876-889): `terminateSession` when phase is ending,
  otherwise no phase/accepting change (BGM refill). -/
def sessionStep (s : SessState) : SessionOp → SessState
  | .start => { phase := .active, accepting := .accepting }
  | .stop =>
    match s.phase with
    | .terminated => s
    | .waiting => { s with phase := .terminated }
    | .ending => s
    | .active => transitionToEnding s
  | .stopImmediate =>
    match s.phase with
    | .terminated => s
    | .waiting => { s with phase := .terminated }
    | .ending => s
    | .active => { phase := .terminated, accepting := .notAccepting }
  | .toEnding => transitionToEnding s
  | .onQueueEmpty =>
    if s.phase = SPhase.ending then terminateSession s else s

/-- Runs a sequence of session-manager operations. -/
def sessionRun (s : SessState) : List SessionOp → SessState
  | [] => s
  | op :: rest => sessionRun (sessionStep s op) rest

/-- The phase indices of all states visited while running `ops` from `s`
(including the initial and final state). -/
def phaseTrace (s : SessState) : List SessionOp → List Nat
  | [] => [s.phase.idx]
  | op :: rest => s.phase.idx :: phaseTrace (sessionStep s op) rest

/-- `true` when every `start` in `ops` (run from `s`) is invoked while the
phase is `waiting`, i.e. in its initialization position. -/
def startsOnlyFromWaiting (s : SessState) : List SessionOp → Bool
  | [] => true
  | op :: rest =>
    (!(op == SessionOp.start) || (s.phase == SPhase.waiting)) &&
      startsOnlyFromWaiting (sessionStep s op) rest

/-! ## Track domain (src/internal/domain/track) -/

/-- Embeds `track.RequesterType` (a string enum in Go). -/
inductive RequesterType where
  | user
  | system
  | opening
  | endingR
  | bgm
deriving DecidableEq, Repr

/-- Embeds `track.Track` (`Duration` in `Int` nanoseconds; `IsPlayable` is the
optional tri-state). -/
structure Track where
  id : String
  name : String
  artists : List String
  album : String
  albumArtURL : String
  duration : Int
  url : String
  genres : List String
  popularity : Int
  explicitFlag : Bool
  markets : List String
  isPlayable : Option Bool
deriving DecidableEq, Repr

/-- Embeds `track.Requester`. -/
structure Requester where
  id : String
  name : String
  externalUserID : String
  rtype : RequesterType
deriving DecidableEq, Repr

/-- Embeds `track.QueuedTrack` (`AddedAt` as `Int` nanoseconds). -/
structure QueuedTrack where
  track : Track
  requester : Requester
  addedAt : Int
deriving DecidableEq, Repr

/-! ## Playback controller (src/unnamed/part_003 and part_004,
src/internal/app/playback/state.go)

The controller's mutex serializes its operations; timers are embedded as the
wall-clock deadlines their `startWallClockTimer` call computes (`none` =
cancelled/absent).  `time.Now()` reads become an explicit `now : Int`
argument; emitted events are returned as a list (the buffered event channel
delivers them in this order). -/

/-- Embeds `playback.State`. -/
inductive PBState where
  | idle
  | playing
  | paused
deriving DecidableEq, Repr

/-- Embeds `playback.EventType` (part_004). -/
inductive PBEventType where
  | trackStarted
  | trackEnded
  | trackSkipped
  | stateChanged
  | queueDepleting
  | queueEmpty
deriving DecidableEq, Repr

/-- Embeds `playback.Event`. -/
structure PBEvent where
  etype : PBEventType
  track : Option QueuedTrack
  state : PBState
deriving DecidableEq, Repr

/-- Embeds the controller errors (`ErrNoTrack`, `ErrQueueEmpty`, ...). -/
inductive PBError where
  | errNoTrack
  | errQueueEmpty
  | errNotPlaying
  | errNotPaused
deriving DecidableEq, Repr

/-- Embeds `playback.Config` (durations in `Int` nanoseconds except the
threshold, which the Go code keeps in seconds). -/
structure PBConfig where
  depletionThresholdSec : Int
  notificationDelay : Int
  gapCorrection : Int
deriving DecidableEq, Repr

/-- Embeds the state of `playback.Controller`: queue, played history, current
track, playback state, the virtual-clock fields, the three timer slots
(deadline of the pending timer, `none` when cancelled), and the depletion
flag.  `notificationTime`'s Go zero value (`time.Time{}`, `IsZero`) is
`none`. -/
structure PBController where
  queue : List QueuedTrack
  played : List QueuedTrack
  currentTrack : Option QueuedTrack
  state : PBState
  startTime : Int
  scheduledStartTime : Int
  notificationTime : Option Int
  pausedAt : Option Int
  pausedElapsed : Int
  timerCancel : Option Int
  depletionTimerCancel : Option Int
  notificationDelayTimerCancel : Option Int
  config : PBConfig
  depletionNotified : Bool
deriving DecidableEq, Repr

/-- Embeds `playback.NewController`. -/
def newController (config : PBConfig) : PBController :=
  { queue := [], played := [], currentTrack := none, state := .idle,
    startTime := 0, scheduledStartTime := 0, notificationTime := none,
    pausedAt := none, pausedElapsed := 0, timerCancel := none,
    depletionTimerCancel := none, notificationDelayTimerCancel := none,
    config := config, depletionNotified := false }

/-- Embeds `Controller.getRemainingDurationLocked` (part_003 lines 347-369). -/
def getRemainingDurationLocked (c : PBController) (now : Int) : Int :=
  match c.currentTrack with
  | none => 0
  | some qt =>
    if now < c.startTime then qt.track.duration
    else
      let elapsed0 := now - c.startTime - c.pausedElapsed
      let elapsed :=
        match c.state, c.pausedAt with
        | .paused, some p => elapsed0 - (now - p)
        | _, _ => elapsed0
      let remaining := qt.track.duration - elapsed
      if remaining < 0 then 0 else remaining

/-- Total remaining playback time as computed inside
`Controller.checkDepletionLocked`: remaining of the current track (0 when
none) plus the durations of all queued tracks. -/
def totalRemaining (c : PBController) (now : Int) : Int :=
  (if c.currentTrack.isSome then getRemainingDurationLocked c now else 0) +
    (c.queue.map (fun qt => qt.track.duration)).sum

/-- The depletion threshold in nanoseconds:
`time.Duration(DepletionThresholdSec) * time.Second`. -/
def depletionThreshold (c : PBController) : Int :=
  c.config.depletionThresholdSec * 1000000000

/-- Embeds `Controller.checkDepletionLocked` (part_003 lines 627-676): no-op
when already notified; otherwise cancel any pending depletion timer, compute
the total remaining time, emit `QueueDepleting` (and set the flag) when
`0 < totalRemaining < threshold`; when `totalRemaining > threshold` and the
state is playing, schedule a depletion re-check timer at
`totalRemaining - threshold` from now. -/
def checkDepletionLocked (c : PBController) (now : Int) :
    PBController × List PBEvent :=
  if c.depletionNotified then (c, [])
  else
    let c1 := { c with depletionTimerCancel := none }
    let total := totalRemaining c1 now
    let threshold := depletionThreshold c1
    if total < threshold ∧ total > 0 then
      ({ c1 with depletionNotified := true },
        [{ etype := .queueDepleting, track := c1.currentTrack,
           state := c1.state }])
    else if total > threshold ∧ c1.state = PBState.playing then
      ({ c1 with depletionTimerCancel := some (now + (total - threshold)) }, [])
    else (c1, [])

/-- Embeds `Controller.Enqueue` (part_003 lines 293-300): append to the
queue, reset the depletion flag, re-check depletion. -/
def enqueue (c : PBController) (qt : QueuedTrack) (now : Int) :
    PBController × List PBEvent :=
  checkDepletionLocked
    { c with queue := c.queue ++ [qt], depletionNotified := false } now

/-- Embeds `Controller.EnqueueMultiple` (part_003 lines 303-310). -/
def enqueueMultiple (c : PBController) (qts : List QueuedTrack) (now : Int) :
    PBController × List PBEvent :=
  checkDepletionLocked
    { c with queue := c.queue ++ qts, depletionNotified := false } now

/-- Embeds `Controller.ClearQueue` (part_003 lines 313-320): hand back the
queued tracks and empty the queue; nothing else is touched. -/
def clearQueue (c : PBController) : List QueuedTrack × PBController :=
  (c.queue, { c with queue := [] })

/-- Embeds `Controller.GetAllTracks` (part_003 lines 452-463):
played + current + queued, in that order. -/
def getAllTracks (c : PBController) : List QueuedTrack :=
  c.played ++ (match c.currentTrack with | some qt => [qt] | none => []) ++
    c.queue

/-- Embeds `Controller.GetTotalDuration`: total duration of queued tracks. -/
def getTotalDuration (c : PBController) : Int :=
  (c.queue.map (fun qt => qt.track.duration)).sum

/-- Embeds `Controller.playNextLocked` (part_003 lines 487-576).  When the
queue is empty: go idle, emit `QueueEmpty`, return `ErrQueueEmpty`.
Otherwise dequeue the head, append the previous current track (if any) to the
played history, start the dequeued track (virtual clock, track-end timer,
depletion check), and either schedule the delayed `TrackStarted` emission
(when `notificationDelay > 0`) or emit `TrackStarted` immediately. -/
def playNextLocked (c : PBController) (now : Int) :
    PBController × List PBEvent × Option PBError :=
  match c.queue with
  | [] =>
    let c1 := { c with state := PBState.idle }
    (c1, [{ etype := .queueEmpty, track := none, state := c1.state }],
      some .errQueueEmpty)
  | qt :: rest =>
    let played1 :=
      match c.currentTrack with
      | some cur => c.played ++ [cur]
      | none => c.played
    let notificationDelay := c.config.notificationDelay
    let gapCorrection := c.config.gapCorrection
    let startBase := if gapCorrection > 0 then now + gapCorrection else now
    let c1 : PBController :=
      { c with queue := rest, played := played1, currentTrack := some qt,
               pausedAt := none, pausedElapsed := 0, state := PBState.playing,
               scheduledStartTime := startBase, startTime := startBase,
               timerCancel := some (now + (qt.track.duration + gapCorrection)) }
    let p := checkDepletionLocked c1 now
    if notificationDelay > 0 then
      ({ p.1 with
          notificationTime := some (startBase + notificationDelay),
          notificationDelayTimerCancel :=
            some (now + (notificationDelay + gapCorrection)) },
        p.2, none)
    else
      (p.1,
        p.2 ++ [{ etype := .trackStarted, track := some qt,
                  state := PBState.playing }],
        none)

/-- Embeds `Controller.Skip` (part_003 lines 232-267): error when no current
track; otherwise cancel the track-end and notification-delay timers, clear
the current track and clock state, emit `TrackSkipped` for the departing
track (the skipped track is *not* appended to the played history), and play
the next track. -/
def skip (c : PBController) (now : Int) :
    PBController × List PBEvent × Option PBError :=
  match c.currentTrack with
  | none => (c, [], some .errNoTrack)
  | some skippedTrack =>
    let c1 : PBController :=
      { c with timerCancel := none, notificationDelayTimerCancel := none,
               currentTrack := none, state := PBState.idle, pausedAt := none,
               pausedElapsed := 0, notificationTime := none }
    let ev : PBEvent :=
      { etype := .trackSkipped, track := some skippedTrack, state := c1.state }
    let p := playNextLocked c1 now
    (p.1, ev :: p.2.1, p.2.2)

/-- Embeds `Controller.onTrackEndLocked` (part_003 lines 586-623): no-op when
no current track; otherwise cancel the track-end timer, *append the ended
track to the played history*, clear the current track, emit `TrackEnded`,
and play the next track. -/
def onTrackEndLocked (c : PBController) (now : Int) :
    PBController × List PBEvent :=
  match c.currentTrack with
  | none => (c, [])
  | some endedTrack =>
    let c1 : PBController :=
      { c with timerCancel := none, played := c.played ++ [endedTrack],
               currentTrack := none, pausedAt := none, pausedElapsed := 0 }
    let ev : PBEvent :=
      { etype := .trackEnded, track := some endedTrack, state := c1.state }
    let p := playNextLocked c1 now
    (p.1, ev :: p.2.1)

/-- The ending-transition queue swap performed by
`Manager.transitionToEnding` (types.go lines 486-502): `ClearQueue`, then
`enqueuePlaylistTracks` (one `Enqueue` per ending track). -/
def endingQueueSwap (c : PBController) (endingTracks : List QueuedTrack)
    (now : Int) : PBController :=
  let c1 := (clearQueue c).2
  endingTracks.foldl (fun acc qt => (enqueue acc qt now).1) c1

/-! ## Depletion-relevant operation sequences (for the depletion discipline)

Every call site of `checkDepletionLocked` (enqueue, resume, play-next, the
depletion timer firing) goes through the same function; only `Enqueue` /
`EnqueueMultiple` reset `depletionNotified`.  A run of the depletion logic is
a sequence of enqueues and re-checks, each at its own wall-clock instant. -/

/-- An operation observed by the depletion logic. -/
inductive DepOp where
  | enqOp (qt : QueuedTrack) (now : Int)        -- Controller.Enqueue
  | enqMultiOp (qts : List QueuedTrack) (now : Int) -- Controller.EnqueueMultiple
  | checkOp (now : Int)                         -- a checkDepletionLocked call
deriving Repr

/-- Applies one depletion-relevant operation. -/
def depStep (c : PBController) : DepOp → PBController × List PBEvent
  | .enqOp qt now => enqueue c qt now
  | .enqMultiOp qts now => enqueueMultiple c qts now
  | .checkOp now => checkDepletionLocked c now

/-- Runs a sequence of depletion-relevant operations, concatenating the
emitted events. -/
def depRun (c : PBController) : List DepOp → PBController × List PBEvent
  | [] => (c, [])
  | op :: rest =>
    ((depRun (depStep c op).1 rest).1,
      (depStep c op).2 ++ (depRun (depStep c op).1 rest).2)

/-- The number of `QueueDepleting` events in an event list. -/
def countDepleting (evs : List PBEvent) : Nat :=
  (evs.filter (fun e => e.etype == PBEventType.queueDepleting)).length

/-- `true` for the operations that reset the depletion flag. -/
def isEnqueueOp : DepOp → Bool
  | .enqOp _ _ => true
  | .enqMultiOp _ _ => true
  | .checkOp _ => false

/-! ## Go regexp subset for DuplicateTrackFilter
(src/internal/app/filter/user_pending.go, second file: duplicate_track)

`normalizeTrackName` applies a fixed list of Go regular expressions with
`ReplaceAllString`.  Go's regexp package provides leftmost-first (Perl-style)
matching; the patterns use only literals, the classes `\s`, `\d` and `.`,
greedy `*`/`+`/`?`/`{n,m}` over single-character classes, and the lazy `.*?`.
We embed exactly that fragment: a backtracking matcher whose preference order
(greedy longest-first, lazy shortest-first, option taken first) mirrors
leftmost-first semantics, and a replace-all loop that scans for the leftmost
match and resumes after its end, as Go does.  Since the replacement text is
only deleted text or a single space and matching is a single pass over the
original string, resuming on the unmatched suffix is exactly Go's
behaviour. -/

/-- Go regexp `\s`: `[\t\n\f\r ]`. -/
def isSpaceRE (ch : Char) : Bool :=
  ch == ' ' || ch == '\t' || ch == '\n' || ch == '\x0c' || ch == '\r'

/-- Go regexp `.`: any character except newline. -/
def isDotRE (ch : Char) : Bool := ch != '\n'

/-- The regular-expression fragment used by the duplicate-track patterns. -/
inductive RE where
  | lit (s : List Char)                       -- literal characters
  | cls (p : Char → Bool)                     -- single character of a class
  | starC (p : Char → Bool)                   -- greedy star of a class
  | lazyStarC (p : Char → Bool)               -- lazy star of a class
  | repC (p : Char → Bool) (lo hi : Nat)      -- greedy counted class, lo..hi
  | opt (r : RE)                              -- greedy option
  | seq (a b : RE)

/-- Suffixes after consuming a (possibly empty) run of class characters, in
greedy preference order (longest run first). -/
def greedySuffixes (p : Char → Bool) : List Char → List (List Char)
  | [] => [[]]
  | ch :: rest =>
    if p ch then greedySuffixes p rest ++ [ch :: rest]
    else [ch :: rest]

/-- Suffixes after consuming a run of class characters, in lazy preference
order (shortest run first). -/
def lazySuffixes (p : Char → Bool) : List Char → List (List Char)
  | [] => [[]]
  | ch :: rest =>
    if p ch then (ch :: rest) :: lazySuffixes p rest
    else [ch :: rest]

/-- Suffixes after consuming a run of class characters, with the run length,
longest first. -/
def runSuffixes (p : Char → Bool) : List Char → List (Nat × List Char)
  | [] => [(0, [])]
  | ch :: rest =>
    if p ch then
      ((runSuffixes p rest).map (fun q => (q.1 + 1, q.2))) ++ [(0, ch :: rest)]
    else [(0, ch :: rest)]

/-- Tries the continuation on each suffix in preference order; first success
wins. -/
def firstSome (k : List Char → Option (List Char)) :
    List (List Char) → Option (List Char)
  | [] => none
  | s :: rest =>
    match k s with
    | some r => some r
    | none => firstSome k rest

/-- The backtracking matcher: `mAt re s k` tries to match `re` at the start
of `s` and passes the remaining suffix to the continuation `k`, exploring
alternatives in Go's leftmost-first preference order. -/
def mAt : RE → List Char → (List Char → Option (List Char)) →
    Option (List Char)
  | .lit l, s, k => if l.isPrefixOf s then k (s.drop l.length) else none
  | .cls p, s, k =>
    match s with
    | [] => none
    | ch :: rest => if p ch then k rest else none
  | .starC p, s, k => firstSome k (greedySuffixes p s)
  | .lazyStarC p, s, k => firstSome k (lazySuffixes p s)
  | .repC p lo hi, s, k =>
    firstSome k
      (((runSuffixes p s).filter
          (fun q => decide (lo ≤ q.1) && decide (q.1 ≤ hi))).map (fun q => q.2))
  | .opt r, s, k =>
    match mAt r s k with
    | some res => some res
    | none => k s
  | .seq a b, s, k => mAt a s (fun s2 => mAt b s2 k)

/-- `ReplaceAllString` with fuel: find the leftmost match, emit the
replacement, continue after the match; characters before a match are copied.
(The duplicate-track patterns never match the empty string; the empty-match
branch advances one character, as Go does for width-zero matches.) -/
def replaceAllF (re : RE) (rep : List Char) : Nat → List Char → List Char
  | 0, s => s
  | fuel + 1, s =>
    match mAt re s some with
    | some rest =>
      if rest.length = s.length then
        match s with
        | [] => []
        | ch :: t => ch :: replaceAllF re rep fuel t
      else rep ++ replaceAllF re rep fuel rest
    | none =>
      match s with
      | [] => []
      | ch :: t => ch :: replaceAllF re rep fuel t

/-- Embeds Go `regexp.ReplaceAllString` for this fragment. -/
def replaceAll (re : RE) (rep : List Char) (s : List Char) : List Char :=
  replaceAllF re rep (s.length + 1) s

/-- Literal helper. -/
def chSeq (s : String) : RE := RE.lit s.data

/-- `\s*` -/
def spStar : RE := RE.starC isSpaceRE

/-- `\s+` -/
def spPlus : RE := RE.seq (RE.cls isSpaceRE) (RE.starC isSpaceRE)

/-- `-?` -/
def dashOpt : RE := RE.opt (chSeq "-")

/-- `(ed)?` -/
def edOpt : RE := RE.opt (chSeq "ed")

/-- `\s*-?\s*\d{4}\s+remaster(ed)?` -/
def reRemaster1 : RE :=
  .seq spStar (.seq dashOpt (.seq spStar (.seq (.repC Char.isDigit 4 4)
    (.seq spPlus (.seq (chSeq "remaster") edOpt)))))

/-- `\s*\(remaster(ed)?\s*\d{0,4}\)` -/
def reRemaster2 : RE :=
  .seq spStar (.seq (chSeq "(remaster") (.seq edOpt
    (.seq spStar (.seq (.repC Char.isDigit 0 4) (chSeq ")")))))

/-- `\s*\[remaster(ed)?\s*\d{0,4}\]` -/
def reRemaster3 : RE :=
  .seq spStar (.seq (chSeq "[remaster") (.seq edOpt
    (.seq spStar (.seq (.repC Char.isDigit 0 4) (chSeq "]")))))

/-- `\s*-?\s*remaster(ed)?(\s+version)?` -/
def reRemaster4 : RE :=
  .seq spStar (.seq dashOpt (.seq spStar (.seq (chSeq "remaster")
    (.seq edOpt (.opt (.seq spPlus (chSeq "version")))))))

/-- `\s*\(.*?remaster.*?\)` -/
def reRemaster5 : RE :=
  .seq spStar (.seq (chSeq "(") (.seq (.lazyStarC isDotRE)
    (.seq (chSeq "remaster") (.seq (.lazyStarC isDotRE) (chSeq ")")))))

/-- `\s*\[.*?remaster.*?\]` -/
def reRemaster6 : RE :=
  .seq spStar (.seq (chSeq "[") (.seq (.lazyStarC isDotRE)
    (.seq (chSeq "remaster") (.seq (.lazyStarC isDotRE) (chSeq "]")))))

/-- `\s*\(.*?version\)` -/
def reVersion1 : RE :=
  .seq spStar (.seq (chSeq "(") (.seq (.lazyStarC isDotRE) (chSeq "version)")))

/-- `\s*\(.*?edit\)` -/
def reVersion2 : RE :=
  .seq spStar (.seq (chSeq "(") (.seq (.lazyStarC isDotRE) (chSeq "edit)")))

/-- `\s*-?\s*live` -/
def reVersion3 : RE :=
  .seq spStar (.seq dashOpt (.seq spStar (chSeq "live")))

/-- `\s*\(live\)` -/
def reVersion4 : RE := .seq spStar (chSeq "(live)")

/-- `\s*-?\s*radio\s+edit` -/
def reVersion5 : RE :=
  .seq spStar (.seq dashOpt (.seq spStar
    (.seq (chSeq "radio") (.seq spPlus (chSeq "edit")))))

/-- `\s*-?\s*single\s+version` -/
def reVersion6 : RE :=
  .seq spStar (.seq dashOpt (.seq spStar
    (.seq (chSeq "single") (.seq spPlus (chSeq "version")))))

/-- The `remasterPatterns` slice, in source order. -/
def remasterPatterns : List RE :=
  [reRemaster1, reRemaster2, reRemaster3, reRemaster4, reRemaster5, reRemaster6]

/-- The `versionPatterns` slice, in source order. -/
def versionPatterns : List RE :=
  [reVersion1, reVersion2, reVersion3, reVersion4, reVersion5, reVersion6]

/-- Applies `pattern.ReplaceAllString(normalized, "")` for each pattern in
order. -/
def applyPatterns (pats : List RE) (s : List Char) : List Char :=
  pats.foldl (fun acc re => replaceAll re [] acc) s

/-- `unicode.IsSpace` (what `strings.TrimSpace` strips) at the ASCII level:
the `\s` class plus vertical tab. -/
def isGoSpace (ch : Char) : Bool := isSpaceRE ch || ch == '\x0b'

/-- Embeds `strings.TrimSpace`. -/
def trimSpaceGo (s : List Char) : List Char :=
  ((s.dropWhile isGoSpace).reverse.dropWhile isGoSpace).reverse

/-- Embeds `strings.TrimRight(s, " -")`. -/
def trimRightDash (s : List Char) : List Char :=
  (s.reverse.dropWhile (fun ch => ch == ' ' || ch == '-')).reverse

/-- Embeds `normalizeTrackName`: lowercase (ASCII-level model of
`strings.ToLower`), strip the remaster patterns then the version patterns,
trim whitespace, collapse runs of whitespace to one space, trim trailing
spaces and dashes. -/
def normalizeTrackName (name : String) : List Char :=
  let n0 := name.data.map Char.toLower
  let n1 := applyPatterns remasterPatterns n0
  let n2 := applyPatterns versionPatterns n1
  let n3 := trimSpaceGo n2
  let n4 := replaceAll spPlus [' '] n3
  trimRightDash n4

/-- Embeds `strings.EqualFold` (ASCII-level simple case folding). -/
def eqFold (a b : String) : Bool :=
  a.data.map Char.toLower == b.data.map Char.toLower

/-- Embeds `isSameArtist`: false when either artist list is empty; otherwise
case-insensitive comparison of the first (main) artists. -/
def isSameArtist (t1 t2 : Track) : Bool :=
  match t1.artists, t2.artists with
  | [], _ => false
  | _, [] => false
  | a1 :: _, a2 :: _ => eqFold a1 a2

/-- Embeds `DuplicateTrackFilter.isRemaster`: normalized names must match,
then same main artist (covers, with a different artist, are not remasters). -/
def isRemaster (track1 track2 : Track) : Bool :=
  if normalizeTrackName track1.name != normalizeTrackName track2.name then
    false
  else isSameArtist track1 track2

/-- Embeds the loop of `DuplicateTrackFilter.Check` over
`queueManager.GetAllTracks()`: reject `duplicate_track` on the first exact id
match or remaster match, accept otherwise. -/
def duplicateTrackLoop (requestedTrack : Track) :
    List QueuedTrack → FResult
  | [] => ⟨true, ""⟩
  | queued :: rest =>
    if queued.track.id == requestedTrack.id then ⟨false, "duplicate_track"⟩
    else if isRemaster queued.track requestedTrack then
      ⟨false, "duplicate_track"⟩
    else duplicateTrackLoop requestedTrack rest

/-- Embeds `DuplicateTrackFilter.Check` with the controller as the queue
manager. -/
def duplicateTrackCheck (c : PBController) (requestedTrack : Track) : FResult :=
  duplicateTrackLoop requestedTrack (getAllTracks c)

/-- Embeds `DuplicateTrackFilter.AppliesTo`: user requests only. -/
def duplicateTrackAppliesTo (rt : RequesterType) : Bool :=
  rt == RequesterType.user

/-- The duplicate predicate `DuplicateTrackFilter.Check` implements for one
queued track: exact id match, or remaster match (equal normalized names and
same main artist). -/
def dupHit (q : QueuedTrack) (t : Track) : Prop :=
  q.track.id = t.id ∨
    (normalizeTrackName q.track.name = normalizeTrackName t.name ∧
      isSameArtist q.track t = true)

instance (q : QueuedTrack) (t : Track) : Decidable (dupHit q t) :=
  inferInstanceAs (Decidable (q.track.id = t.id ∨
    (normalizeTrackName q.track.name = normalizeTrackName t.name ∧
      isSameArtist q.track t = true)))

/-! ## Sample data for concrete witnesses (spec §8 scenarios) -/

/-- "Yesterday" by The Beatles (queued, id A). -/
def trkYesterday : Track :=
  ⟨"A", "Yesterday", ["The Beatles"], "", "", 125000000000, "", [], 0, false,
    [], none⟩

/-- "Yesterday (Remastered 2023)" by The Beatles (requested, id B). -/
def trkRemaster : Track :=
  ⟨"B", "Yesterday (Remastered 2023)", ["The Beatles"], "", "", 125000000000,
    "", [], 0, false, [], none⟩

/-- "Yesterday" by Paul McCartney — a cover (requested, id C). -/
def trkCover : Track :=
  ⟨"C", "Yesterday", ["Paul McCartney"], "", "", 125000000000, "", [], 0,
    false, [], none⟩

/-- A second, unrelated track. -/
def trkOther : Track :=
  ⟨"D", "Zed", ["Ann"], "", "", 200000000000, "", [], 0, false, [], none⟩

/-- A 20-second track (below the sample 30-second depletion threshold). -/
def trkShort : Track :=
  ⟨"E", "Blip", ["Ann"], "", "", 20000000000, "", [], 0, false, [], none⟩

/-- A sample USER requester. -/
def reqSample : Requester := ⟨"L1", "Ann", "", RequesterType.user⟩

/-- Sample playback configuration (30 s threshold, 5 s delay, 100 ms gap). -/
def pbCfgSample : PBConfig := ⟨30, 5000000000, 100000000⟩

/-- Controller playing "Yesterday" with "Zed" in the played history. -/
def cSample : PBController :=
  { newController pbCfgSample with
      currentTrack := some ⟨trkYesterday, reqSample, 0⟩,
      state := PBState.playing, played := [⟨trkOther, reqSample, 0⟩] }

/-! ## Notification subscription protocol
(src/unnamed/part_013, second `ListenerService.SubscribeNotifications` with
the buffering `notificationStreamAdapter`;
src/internal/app/notification/manager.go for `Broadcast`)

The protocol interleaves one subscriber's setup (`Subscribe`, sending
INITIAL_STATE, `Flush`) with concurrent `Broadcast`s.  The adapter's mutex
and the manager's locks make each of these an atomic step on the state
below.  `delivered` is the sequence of notifications written to the
subscriber's stream, in order. -/

/-- The wire notification types. -/
inductive NotifType where
  | initialState
  | changeState
  | changeTrack
deriving DecidableEq, Repr

/-- The state of one subscription setup running against the notification
manager: the shared sequence counter, whether the subscriber's adapter is
registered, the sequence number allocated at Subscribe time, the adapter's
`ready` flag and `buffer`, and the notifications delivered on the stream. -/
structure SubProtoState where
  seqCounter : Nat
  registered : Bool
  initialSeq : Option Nat
  ready : Bool
  buffer : List (NotifType × Nat)
  delivered : List (NotifType × Nat)
deriving DecidableEq, Repr

/-- Before the subscription begins: counter at `c0` (earlier broadcasts),
adapter not registered, nothing buffered or delivered. -/
def subProtoInit (c0 : Nat) : SubProtoState :=
  ⟨c0, false, none, false, [], []⟩

/-- The atomic actions of the protocol. -/
inductive SubAction where
  | broadcastA (t : NotifType)  -- Manager.Broadcast of a CHANGE_* notification
  | subscribeA                  -- notifManager.Subscribe(adapter)
  | sendInitialA                -- stream.Send(initialNotification)
  | flushA                      -- adapter.Flush()
deriving DecidableEq, Repr

/-- Modelled from the spec: the two-value `Manager.Subscribe` called by the
buffering `SubscribeNotifications` (part_013 line 238) — its Go body is not
in the repository snapshot, only this caller and the one-value variant are.
Per spec §4.5, subscribing registers the subscriber (whose per-subscriber
buffer starts un-flushed) and allocates the next sequence number from the
shared counter, atomically. -/
def subscribeStep (st : SubProtoState) : SubProtoState :=
  { st with seqCounter := st.seqCounter + 1, registered := true,
            ready := false, initialSeq := some (st.seqCounter + 1) }

/-- One atomic protocol step.  `broadcastA` embeds `Manager.Broadcast`
(allocate the next number under `sequenceNoMu`, then send through each
registered subscriber's `Send`) combined with `notificationStreamAdapter.Send`
(part_013 lines 280-290: append to `buffer` when not `ready`, else write to
the stream); `sendInitialA` embeds step 4 of `SubscribeNotifications`
(the INITIAL_STATE notification carrying the sequence number allocated at
Subscribe); `flushA` embeds `notificationStreamAdapter.Flush` (lines 292-306:
set `ready`, write the buffered notifications to the stream in order). -/
def subStep (st : SubProtoState) : SubAction → SubProtoState
  | .broadcastA t =>
    if st.registered then
      if st.ready then
        { st with seqCounter := st.seqCounter + 1,
                  delivered := st.delivered ++ [(t, st.seqCounter + 1)] }
      else
        { st with seqCounter := st.seqCounter + 1,
                  buffer := st.buffer ++ [(t, st.seqCounter + 1)] }
    else { st with seqCounter := st.seqCounter + 1 }
  | .subscribeA => subscribeStep st
  | .sendInitialA =>
    { st with delivered :=
        st.delivered ++ [(NotifType.initialState, st.initialSeq.getD 0)] }
  | .flushA =>
    { st with ready := true, buffer := [],
              delivered := st.delivered ++ st.buffer }

/-- Runs a sequence of protocol actions. -/
def subRun (st : SubProtoState) : List SubAction → SubProtoState
  | [] => st
  | a :: rest => subRun (subStep st a) rest

/-- The shape of every execution of `SubscribeNotifications` for one
subscriber: the subscriber's own three steps happen in program order
(subscribe, send INITIAL_STATE, flush), with broadcasts interleaved
anywhere. -/
def subscribeTrace (pre mid1 mid2 post : List NotifType) : List SubAction :=
  pre.map SubAction.broadcastA ++ [SubAction.subscribeA] ++
    mid1.map SubAction.broadcastA ++ [SubAction.sendInitialA] ++
    mid2.map SubAction.broadcastA ++ [SubAction.flushA] ++
    post.map SubAction.broadcastA

/-! ## Filter chain (src/unnamed/part_005, part_006) and
`Manager.RequestTrack` (src/internal/app/session/state/types.go lines
632-687)

A filter is its `AppliesTo` predicate and `Check` function (the other
interface members do not affect `Execute`).  `RequestTrack`'s external
dependencies are passed as values: the registry lookup result is computed
from an association-list registry, the `CatalogClient.GetTrack` outcome is an
`Option Track` (`none` = error), and `time.Now()` is `now`.  The Spotify
playlist mutation and the idle-`Play` trigger touch only external state. -/

/-- Embeds `filter.TrackRequest`. -/
structure TrackRequest where
  listenerID : String
  trackID : String
deriving DecidableEq, Repr

/-- A filter, reduced to the two members `Chain.Execute` consults. -/
structure AbsFilter where
  appliesTo : RequesterType → Bool
  check : TrackRequest → Track → ListenerSession → FResult

/-- Embeds `Chain.Execute` (part_006 lines 31-44): run the filters in order,
skipping those that do not apply to the requester type; the first rejecting
result is returned; otherwise accept. -/
def chainExecute (filters : List AbsFilter) (req : TrackRequest) (t : Track)
    (l : ListenerSession) (rt : RequesterType) : FResult :=
  match filters with
  | [] => FResult.acceptR
  | f :: rest =>
    if !(f.appliesTo rt) then chainExecute rest req t l rt
    else
      if !(f.check req t l).accepted then f.check req t l
      else chainExecute rest req t l rt

/-- The listener registry's map, as an association list (`ListenerRegistry`
in src/unnamed/part_011). -/
def regGet (reg : List (String × ListenerSession)) (id : String) :
    Option ListenerSession :=
  match reg.find? (fun p => p.1 == id) with
  | some p => some p.2
  | none => none

/-- Embeds `ListenerRegistry.IncrementPending`: the named listener's session
is incremented in place (no-op when absent). -/
def regIncrementPending (reg : List (String × ListenerSession)) (id : String)
    (now : Int) : List (String × ListenerSession) :=
  reg.map (fun p =>
    if p.1 == id then (p.1, incrementPendingTracks p.2 now) else p)

/-- Embeds `Manager.addRecentArtistsLocked` (types.go lines 1042-1049):
prepend each artist, truncating to `maxRecentArtists`. -/
def addRecentArtistsLocked (recent : List String) (maxRecent : Nat)
    (artists : List String) : List String :=
  artists.foldl (fun acc artist =>
    if (artist :: acc).length > maxRecent then (artist :: acc).take maxRecent
    else artist :: acc) recent

/-- The observable outcome of `Manager.RequestTrack`: the returned triple
`(accepted, code, error)` plus the state it may have changed (controller,
registry, recent-artists window). -/
structure ReqOutcome where
  accepted : Bool
  code : String
  errv : Option Unit
  controller : PBController
  registry : List (String × ListenerSession)
  recentArtists : List String

/-- Embeds `Manager.RequestTrack` (types.go lines 632-687): validate the
listener (`invalid_listener`), fetch the track (`track_not_found`), run the
filter chain with class USER (return the rejection code on reject), and on
accept enqueue the track, remember its artists, and increment the listener's
pending count.  Every return path has a `nil` error. -/
def requestTrack (reg : List (String × ListenerSession))
    (fetched : Option Track) (filters : List AbsFilter) (c : PBController)
    (recent : List String) (maxRecent : Nat)
    (listenerID trackID : String) (now : Int) : ReqOutcome :=
  match regGet reg listenerID with
  | none => ⟨false, "invalid_listener", none, c, reg, recent⟩
  | some session =>
    match fetched with
    | none => ⟨false, "track_not_found", none, c, reg, recent⟩
    | some t =>
      let result := chainExecute filters ⟨listenerID, trackID⟩ t session
        RequesterType.user
      if !result.accepted then ⟨false, result.code, none, c, reg, recent⟩
      else
        let qt : QueuedTrack :=
          { track := t,
            requester := { id := session.id, name := session.displayName,
                           externalUserID := session.externalUserID,
                           rtype := RequesterType.user },
            addedAt := now }
        ⟨true, "", none, (enqueue c qt now).1,
          regIncrementPending reg listenerID now,
          addRecentArtistsLocked recent maxRecent t.artists⟩

/-! # Theorems -/

/-! ## C1: the acceptance gate -/

/-- **C1.** For every USER-class request checked by the AcceptanceGate filter:
if the session is not accepting, the result is `Reject "acceptance_done"`;
otherwise, when an end time is set, the result is `Reject "time_limit_exceeded"`
exactly when `now` is after `scheduled_end - ending_duration`, or when the
projected playback-start time `now + current_remaining + queued_duration` is at
or after that deadline (in particular a projected start exactly equal to the
deadline is rejected); in all other cases the filter accepts. -/
theorem acceptance_gate_check_characterization (e : AcceptanceEnv) :
    (e.isAccepting = false →
      acceptanceDoneCheck e = FResult.rejectR "acceptance_done") ∧
    (∀ endT, e.isAccepting = true → e.endTime = some endT →
      (acceptanceDoneCheck e = FResult.rejectR "time_limit_exceeded" ↔
        (e.now > endT - e.endingDur ∨
          e.now + e.currentRemain + e.queueDuration ≥ endT - e.endingDur))) ∧
    (∀ endT, e.isAccepting = true → e.endTime = some endT →
      e.now + e.currentRemain + e.queueDuration = endT - e.endingDur →
      acceptanceDoneCheck e = FResult.rejectR "time_limit_exceeded") ∧
    (e.isAccepting = true → e.endTime = none →
      acceptanceDoneCheck e = FResult.acceptR) ∧
    (∀ endT, e.isAccepting = true → e.endTime = some endT →
      ¬ e.now > endT - e.endingDur →
      ¬ e.now + e.currentRemain + e.queueDuration ≥ endT - e.endingDur →
      acceptanceDoneCheck e = FResult.acceptR) := by
  refine ⟨?_, ?_, ?_, ?_, ?_⟩
  · intro hAcc
    simp [acceptanceDoneCheck, hAcc]
  · intro endT hAcc hEt
    simp only [acceptanceDoneCheck, hAcc, hEt, Bool.not_true, Bool.false_eq_true,
      if_false]
    by_cases h1 : e.now > endT - e.endingDur
    · rw [if_pos h1]
      exact ⟨fun _ => Or.inl h1, fun _ => rfl⟩
    · rw [if_neg h1]
      by_cases h2 : e.now + e.currentRemain + e.queueDuration ≥ endT - e.endingDur
      · rw [if_pos (by omega)]
        exact ⟨fun _ => Or.inr h2, fun _ => rfl⟩
      · rw [if_neg (by omega)]
        constructor
        · intro hh
          exact absurd hh (by simp [FResult.acceptR, FResult.rejectR])
        · intro hh
          exfalso
          rcases hh with hh | hh <;> omega
  · intro endT hAcc hEt heq
    simp only [acceptanceDoneCheck, hAcc, hEt, Bool.not_true, Bool.false_eq_true,
      if_false]
    by_cases h1 : e.now > endT - e.endingDur
    · rw [if_pos h1]
    · rw [if_neg h1, if_pos (Or.inr heq)]
  · intro hAcc hEt
    simp [acceptanceDoneCheck, hAcc, hEt]
  · intro endT hAcc hEt h1 h2
    simp only [acceptanceDoneCheck, hAcc, hEt, Bool.not_true, Bool.false_eq_true,
      if_false]
    rw [if_neg h1, if_neg (by omega)]

/-- Witness for C1: with `scheduled_end = 100`, `ending_duration = 10`
(deadline 90), `now = 80`, `current_remaining = 6`, `queued_duration = 4`, the
projected start equals the deadline and the request is rejected with
`time_limit_exceeded`. -/
theorem acceptance_gate_check_characterization_witness :
    acceptanceDoneCheck ⟨true, some 100, 10, 4, 6, 80⟩ =
      FResult.rejectR "time_limit_exceeded" :=
  (acceptance_gate_check_characterization ⟨true, some 100, 10, 4, 6, 80⟩).2.2.1
    100 rfl rfl (by decide)

/-! ## C8: pending-count accounting -/

theorem applyPendingOp_nonneg (s : ListenerSession) (op : PendingOp)
    (h : 0 ≤ s.pendingTracks) : 0 ≤ (applyPendingOp s op).pendingTracks := by
  cases op with
  | inc now => simp only [applyPendingOp, incrementPendingTracks]; omega
  | dec =>
    simp only [applyPendingOp, decrementPendingTracks]
    split
    · simp only []; omega
    · exact h

theorem applyPendingOps_nonneg (ops : List PendingOp) (s : ListenerSession)
    (h : 0 ≤ s.pendingTracks) : 0 ≤ (applyPendingOps s ops).pendingTracks := by
  induction ops generalizing s with
  | nil => exact h
  | cons op rest ih => exact ih _ (applyPendingOp_nonneg s op h)

/-- **C8.** For every listener session and every starting value of
`pending_count` (any nonnegative value, as established at `NewSession`):
`pending_count` stays `≥ 0` under every sequence of increment/decrement
operations; `DecrementPendingTracks` at `pending_count = 0` leaves the whole
session (in particular that field) unchanged; and `IncrementPendingTracks`
followed by `DecrementPendingTracks` returns `pending_count` to its original
value. -/
theorem pending_count_invariants (s : ListenerSession)
    (h : 0 ≤ s.pendingTracks) :
    (∀ ops : List PendingOp, 0 ≤ (applyPendingOps s ops).pendingTracks) ∧
    (s.pendingTracks = 0 → decrementPendingTracks s = s) ∧
    (∀ now : Int,
      (decrementPendingTracks (incrementPendingTracks s now)).pendingTracks =
        s.pendingTracks) := by
  refine ⟨fun ops => applyPendingOps_nonneg ops s h, ?_, ?_⟩
  · intro h0
    simp [decrementPendingTracks, h0]
  · intro now
    simp only [decrementPendingTracks, incrementPendingTracks]
    rw [if_pos (show s.pendingTracks + 1 > 0 by omega)]
    show s.pendingTracks + 1 - 1 = s.pendingTracks
    omega

/-- Witness for C8: a fresh session (pending 0) after `[inc, dec, dec, inc]`
has nonnegative pending count; decrement at 0 is the identity; inc-then-dec
restores pending. -/
theorem pending_count_invariants_witness :
    (0 ≤ (applyPendingOps (newListenerSession "l1" "Ann" "" false 0)
        [.inc 5, .dec, .dec, .inc 9]).pendingTracks) ∧
    (decrementPendingTracks (newListenerSession "l1" "Ann" "" false 0) =
      newListenerSession "l1" "Ann" "" false 0) ∧
    ((decrementPendingTracks
        (incrementPendingTracks (newListenerSession "l1" "Ann" "" false 0) 7)
      ).pendingTracks = (newListenerSession "l1" "Ann" "" false 0).pendingTracks) := by
  have h := pending_count_invariants (newListenerSession "l1" "Ann" "" false 0)
    (by decide)
  exact ⟨h.1 [.inc 5, .dec, .dec, .inc 9], h.2.1 (by decide), h.2.2 7⟩

/-! ## C3: the shared sequence counter -/

theorem seqAllocRun_gt (allocs : List SeqAllocKind) (c : Nat) :
    ∀ x ∈ seqAllocRun c allocs, c < x := by
  induction allocs generalizing c with
  | nil => intro x hx; cases hx
  | cons k rest ih =>
    intro x hx
    cases k with
    | subscribeAlloc =>
      rcases List.mem_cons.mp hx with hx | hx
      · simp only [seqAllocRun, seqAllocStep, nextSequenceNo] at hx
        omega
      · have := ih (c + 1) x hx
        omega
    | broadcastAlloc =>
      rcases List.mem_cons.mp hx with hx | hx
      · simp only [seqAllocRun, seqAllocStep, broadcastSeqNoAlloc] at hx
        omega
      · have := ih (c + 1) x hx
        omega

/-- **C3.** All sequence numbers are drawn from the single shared counter,
by `Broadcast` and by the subscribe-time allocation `NextSequenceNo`; for
every serialization of those allocations (the `sequenceNoMu` lock serializes
them) the assigned numbers are pairwise strictly increasing in allocation
order, and no two notifications — INITIAL_STATE allocations included — share
a sequence number. -/
theorem sequence_numbers_strictly_increasing (c : Nat)
    (allocs : List SeqAllocKind) :
    List.Pairwise (· < ·) (seqAllocRun c allocs) ∧
    (seqAllocRun c allocs).Nodup := by
  have main : List.Pairwise (· < ·) (seqAllocRun c allocs) := by
    induction allocs generalizing c with
    | nil => exact List.Pairwise.nil
    | cons k rest ih =>
      cases k with
      | subscribeAlloc =>
        refine List.pairwise_cons.mpr ⟨?_, ih (c + 1)⟩
        intro x hx
        exact seqAllocRun_gt rest (c + 1) x hx
      | broadcastAlloc =>
        refine List.pairwise_cons.mpr ⟨?_, ih (c + 1)⟩
        intro x hx
        exact seqAllocRun_gt rest (c + 1) x hx
  exact ⟨main, main.imp Nat.ne_of_lt⟩

/-! ## C4: lifecycle phase monotonicity -/

/-- The inductive invariant for the session state: accepting implies active. -/
def sessInv (s : SessState) : Prop :=
  s.accepting = AcceptingState.accepting → s.phase = SPhase.active

theorem sessionStep_mono (s : SessState) (op : SessionOp)
    (hinv : sessInv s) (hstart : op = SessionOp.start → s.phase = SPhase.waiting) :
    s.phase.idx ≤ (sessionStep s op).phase.idx ∧ sessInv (sessionStep s op) := by
  obtain ⟨p, a⟩ := s
  cases p <;> cases a <;> cases op <;>
    simp_all [sessionStep, sessInv, transitionToEnding, terminateSession,
      SPhase.idx]

theorem sessionRun_mono (ops : List SessionOp) (s : SessState)
    (hinv : sessInv s)
    (hok : startsOnlyFromWaiting s ops = true) :
    List.Chain' (· ≤ ·) (phaseTrace s ops) ∧ sessInv (sessionRun s ops) ∧
    s.phase.idx ≤ (sessionRun s ops).phase.idx := by
  induction ops generalizing s with
  | nil =>
    exact ⟨List.chain'_singleton _, hinv, le_refl _⟩
  | cons op rest ih =>
    have hok2 := hok
    simp only [startsOnlyFromWaiting, Bool.and_eq_true, Bool.or_eq_true,
      Bool.not_eq_true', beq_eq_false_iff_ne, ne_eq, beq_iff_eq] at hok2
    have hstart : op = SessionOp.start → s.phase = SPhase.waiting := by
      intro h
      rcases hok2.1 with h1 | h1
      · exact absurd h h1
      · exact h1
    have hstep := sessionStep_mono s op hinv hstart
    have hrest := ih (sessionStep s op) hstep.2 hok2.2
    refine ⟨?_, hrest.2.1, le_trans hstep.1 hrest.2.2⟩
    show List.Chain' (· ≤ ·) (s.phase.idx :: phaseTrace (sessionStep s op) rest)
    rw [List.chain'_cons']
    refine ⟨?_, hrest.1⟩
    intro y hy
    cases rest with
    | nil =>
      simp only [phaseTrace, List.head?_cons, Option.mem_def, Option.some.injEq] at hy
      omega
    | cons op2 rest2 =>
      simp only [phaseTrace, List.head?_cons, Option.mem_def, Option.some.injEq] at hy
      omega

/-! ## C5: the duplicate-track filter -/

theorem isRemaster_iff (a b : Track) :
    isRemaster a b = true ↔
      (normalizeTrackName a.name = normalizeTrackName b.name ∧
        isSameArtist a b = true) := by
  simp only [isRemaster]
  split
  · rename_i h
    simp only [bne_iff_ne, ne_eq] at h
    constructor
    · intro hf
      exact absurd hf (by simp)
    · intro hc
      exact absurd hc.1 h
  · rename_i h
    simp only [bne_iff_ne, ne_eq, not_not] at h
    exact ⟨fun hs => ⟨h, hs⟩, fun hc => hc.2⟩

theorem duplicateTrackLoop_eq_or (t : Track) (l : List QueuedTrack) :
    duplicateTrackLoop t l = FResult.rejectR "duplicate_track" ∨
      duplicateTrackLoop t l = FResult.acceptR := by
  induction l with
  | nil => exact Or.inr rfl
  | cons q rest ih =>
    simp only [duplicateTrackLoop]
    split
    · exact Or.inl rfl
    · split
      · exact Or.inl rfl
      · exact ih

theorem duplicateTrackLoop_reject_iff (t : Track) (l : List QueuedTrack) :
    duplicateTrackLoop t l = FResult.rejectR "duplicate_track" ↔
      ∃ q ∈ l, dupHit q t := by
  induction l with
  | nil =>
    constructor
    · intro h
      exact absurd h (by simp [duplicateTrackLoop, FResult.rejectR])
    · rintro ⟨q, hq, _⟩
      cases hq
  | cons q rest ih =>
    simp only [duplicateTrackLoop]
    split
    · rename_i h
      simp only [beq_iff_eq] at h
      exact ⟨fun _ => ⟨q, List.mem_cons_self q rest, Or.inl h⟩, fun _ => rfl⟩
    · split
      · rename_i hid hrem
        rw [isRemaster_iff] at hrem
        exact ⟨fun _ => ⟨q, List.mem_cons_self q rest, Or.inr hrem⟩,
          fun _ => rfl⟩
      · rename_i hid hrem
        rw [ih]
        constructor
        · rintro ⟨q2, hq2, hc⟩
          exact ⟨q2, List.mem_cons_of_mem q hq2, hc⟩
        · rintro ⟨q2, hq2, hc⟩
          rcases List.mem_cons.mp hq2 with hq2 | hq2
          · subst hq2
            exfalso
            rcases hc with hc | hc
            · simp only [beq_iff_eq] at hid
              exact hid hc
            · have : isRemaster q2.track t = true := (isRemaster_iff _ _).mpr hc
              simp only [this] at hrem
              exact hrem trivial
          · exact ⟨q2, hq2, hc⟩

theorem duplicateTrackLoop_accept_iff (t : Track) (l : List QueuedTrack) :
    duplicateTrackLoop t l = FResult.acceptR ↔ ∀ q ∈ l, ¬ dupHit q t := by
  have hne : FResult.rejectR "duplicate_track" ≠ FResult.acceptR := by decide
  constructor
  · intro h q hq hhit
    have := (duplicateTrackLoop_reject_iff t l).mpr ⟨q, hq, hhit⟩
    rw [h] at this
    exact hne this.symm
  · intro h
    rcases duplicateTrackLoop_eq_or t l with hr | ha
    · obtain ⟨q, hq, hhit⟩ := (duplicateTrackLoop_reject_iff t l).mp hr
      exact absurd hhit (h q hq)
    · exact ha

/-- **C5.** For every USER-class request, the DuplicateTrack filter rejects
with code `duplicate_track` iff the combined list played + current + queued
(`GetAllTracks`) contains a track with the same id, or a track whose
normalized name equals the requested track's normalized name and whose
primary (first) artist matches case-insensitively; otherwise — covers
(different primary artist) and remixes (distinct normalized name) included —
it accepts.  Normalization (`normalizeTrackName`) lowercases, strips the
fixed remaster/version pattern set, collapses whitespace and trims trailing
spaces/dashes; the filter applies to USER requesters only. -/
theorem duplicate_track_filter_characterization (c : PBController) (t : Track) :
    (duplicateTrackCheck c t = FResult.rejectR "duplicate_track" ↔
      ∃ q ∈ getAllTracks c, q.track.id = t.id ∨
        (normalizeTrackName q.track.name = normalizeTrackName t.name ∧
          isSameArtist q.track t = true)) ∧
    (duplicateTrackCheck c t = FResult.acceptR ↔
      ∀ q ∈ getAllTracks c, ¬ (q.track.id = t.id ∨
        (normalizeTrackName q.track.name = normalizeTrackName t.name ∧
          isSameArtist q.track t = true))) ∧
    (duplicateTrackCheck c t = FResult.rejectR "duplicate_track" ∨
      duplicateTrackCheck c t = FResult.acceptR) ∧
    duplicateTrackAppliesTo RequesterType.user = true ∧
    duplicateTrackAppliesTo RequesterType.bgm = false ∧
    duplicateTrackAppliesTo RequesterType.opening = false :=
  ⟨duplicateTrackLoop_reject_iff t (getAllTracks c),
    duplicateTrackLoop_accept_iff t (getAllTracks c),
    duplicateTrackLoop_eq_or t (getAllTracks c), rfl, rfl, rfl⟩

/-- Spec §8 scenario 1, concretely: with "Yesterday" by The Beatles playing,
a request for "Yesterday (Remastered 2023)" by The Beatles is rejected with
`duplicate_track`, while "Yesterday" by Paul McCartney (a cover) is
accepted. -/
theorem remaster_rejected_cover_accepted :
    duplicateTrackCheck cSample trkRemaster =
      FResult.rejectR "duplicate_track" ∧
    duplicateTrackCheck cSample trkCover = FResult.acceptR := by
  constructor
  · decide
  · decide

/-! ## C9 / C10: frame properties of the controller -/

theorem checkDepletionLocked_frame (c : PBController) (now : Int) :
    ((checkDepletionLocked c now).1.queue = c.queue) ∧
    ((checkDepletionLocked c now).1.played = c.played) ∧
    ((checkDepletionLocked c now).1.currentTrack = c.currentTrack) ∧
    ((checkDepletionLocked c now).1.state = c.state) ∧
    ((checkDepletionLocked c now).1.startTime = c.startTime) ∧
    ((checkDepletionLocked c now).1.scheduledStartTime =
      c.scheduledStartTime) ∧
    ((checkDepletionLocked c now).1.notificationTime = c.notificationTime) ∧
    ((checkDepletionLocked c now).1.pausedAt = c.pausedAt) ∧
    ((checkDepletionLocked c now).1.pausedElapsed = c.pausedElapsed) ∧
    ((checkDepletionLocked c now).1.timerCancel = c.timerCancel) ∧
    ((checkDepletionLocked c now).1.notificationDelayTimerCancel =
      c.notificationDelayTimerCancel) ∧
    ((checkDepletionLocked c now).1.config = c.config) := by
  simp only [checkDepletionLocked]
  split
  · exact ⟨rfl, rfl, rfl, rfl, rfl, rfl, rfl, rfl, rfl, rfl, rfl, rfl⟩
  · split
    · exact ⟨rfl, rfl, rfl, rfl, rfl, rfl, rfl, rfl, rfl, rfl, rfl, rfl⟩
    · split
      · exact ⟨rfl, rfl, rfl, rfl, rfl, rfl, rfl, rfl, rfl, rfl, rfl, rfl⟩
      · exact ⟨rfl, rfl, rfl, rfl, rfl, rfl, rfl, rfl, rfl, rfl, rfl, rfl⟩

theorem enqueue_frame (c : PBController) (qt : QueuedTrack) (now : Int) :
    ((enqueue c qt now).1.queue = c.queue ++ [qt]) ∧
    ((enqueue c qt now).1.played = c.played) ∧
    ((enqueue c qt now).1.currentTrack = c.currentTrack) ∧
    ((enqueue c qt now).1.state = c.state) ∧
    ((enqueue c qt now).1.startTime = c.startTime) ∧
    ((enqueue c qt now).1.scheduledStartTime = c.scheduledStartTime) ∧
    ((enqueue c qt now).1.notificationTime = c.notificationTime) ∧
    ((enqueue c qt now).1.pausedAt = c.pausedAt) ∧
    ((enqueue c qt now).1.pausedElapsed = c.pausedElapsed) ∧
    ((enqueue c qt now).1.timerCancel = c.timerCancel) ∧
    ((enqueue c qt now).1.notificationDelayTimerCancel =
      c.notificationDelayTimerCancel) ∧
    ((enqueue c qt now).1.config = c.config) :=
  checkDepletionLocked_frame
    { c with queue := c.queue ++ [qt], depletionNotified := false } now

theorem foldl_enqueue_frame (ts : List QueuedTrack) (a : PBController)
    (now : Int) :
    ((ts.foldl (fun acc qt => (enqueue acc qt now).1) a).queue =
      a.queue ++ ts) ∧
    ((ts.foldl (fun acc qt => (enqueue acc qt now).1) a).played = a.played) ∧
    ((ts.foldl (fun acc qt => (enqueue acc qt now).1) a).currentTrack =
      a.currentTrack) ∧
    ((ts.foldl (fun acc qt => (enqueue acc qt now).1) a).state = a.state) ∧
    ((ts.foldl (fun acc qt => (enqueue acc qt now).1) a).startTime =
      a.startTime) ∧
    ((ts.foldl (fun acc qt => (enqueue acc qt now).1) a).scheduledStartTime =
      a.scheduledStartTime) ∧
    ((ts.foldl (fun acc qt => (enqueue acc qt now).1) a).notificationTime =
      a.notificationTime) ∧
    ((ts.foldl (fun acc qt => (enqueue acc qt now).1) a).pausedAt =
      a.pausedAt) ∧
    ((ts.foldl (fun acc qt => (enqueue acc qt now).1) a).pausedElapsed =
      a.pausedElapsed) ∧
    ((ts.foldl (fun acc qt => (enqueue acc qt now).1) a).timerCancel =
      a.timerCancel) ∧
    ((ts.foldl (fun acc qt => (enqueue acc qt now).1) a
      ).notificationDelayTimerCancel = a.notificationDelayTimerCancel) := by
  induction ts generalizing a with
  | nil =>
    refine ⟨by simp, rfl, rfl, rfl, rfl, rfl, rfl, rfl, rfl, rfl, rfl⟩
  | cons t rest ih =>
    have he := enqueue_frame a t now
    have hr := ih (enqueue a t now).1
    simp only [List.foldl_cons]
    refine ⟨?_, ?_, ?_, ?_, ?_, ?_, ?_, ?_, ?_, ?_, ?_⟩
    · rw [hr.1, he.1, List.append_assoc]
      rfl
    · rw [hr.2.1, he.2.1]
    · rw [hr.2.2.1, he.2.2.1]
    · rw [hr.2.2.2.1, he.2.2.2.1]
    · rw [hr.2.2.2.2.1, he.2.2.2.2.1]
    · rw [hr.2.2.2.2.2.1, he.2.2.2.2.2.1]
    · rw [hr.2.2.2.2.2.2.1, he.2.2.2.2.2.2.1]
    · rw [hr.2.2.2.2.2.2.2.1, he.2.2.2.2.2.2.2.1]
    · rw [hr.2.2.2.2.2.2.2.2.1, he.2.2.2.2.2.2.2.2.1]
    · rw [hr.2.2.2.2.2.2.2.2.2.1, he.2.2.2.2.2.2.2.2.2.1]
    · rw [hr.2.2.2.2.2.2.2.2.2.2, he.2.2.2.2.2.2.2.2.2.2.1]

/-- **C10.** `ClearQueue` returns exactly the tracks that were in the queue,
in order, and empties only the queue: the current track, the playback state,
the played history, the virtual-clock fields and the running timers are all
unchanged.  Consequently the ending transition (ClearQueue followed by one
Enqueue per ending track) leaves the currently playing track, the playback
state, the played history, the clock fields and the track-end timer
untouched — the current track continues to completion — while the queue
becomes exactly the ending playlist. -/
theorem clear_queue_frame (c : PBController)
    (endingTracks : List QueuedTrack) (now : Int) :
    ((clearQueue c).1 = c.queue) ∧
    ((clearQueue c).2.queue = []) ∧
    ((clearQueue c).2.currentTrack = c.currentTrack) ∧
    ((clearQueue c).2.state = c.state) ∧
    ((clearQueue c).2.played = c.played) ∧
    ((clearQueue c).2.startTime = c.startTime) ∧
    ((clearQueue c).2.scheduledStartTime = c.scheduledStartTime) ∧
    ((clearQueue c).2.notificationTime = c.notificationTime) ∧
    ((clearQueue c).2.pausedAt = c.pausedAt) ∧
    ((clearQueue c).2.pausedElapsed = c.pausedElapsed) ∧
    ((clearQueue c).2.timerCancel = c.timerCancel) ∧
    ((clearQueue c).2.depletionTimerCancel = c.depletionTimerCancel) ∧
    ((clearQueue c).2.notificationDelayTimerCancel =
      c.notificationDelayTimerCancel) ∧
    ((endingQueueSwap c endingTracks now).currentTrack = c.currentTrack) ∧
    ((endingQueueSwap c endingTracks now).state = c.state) ∧
    ((endingQueueSwap c endingTracks now).played = c.played) ∧
    ((endingQueueSwap c endingTracks now).startTime = c.startTime) ∧
    ((endingQueueSwap c endingTracks now).pausedAt = c.pausedAt) ∧
    ((endingQueueSwap c endingTracks now).pausedElapsed = c.pausedElapsed) ∧
    ((endingQueueSwap c endingTracks now).timerCancel = c.timerCancel) ∧
    ((endingQueueSwap c endingTracks now).queue = endingTracks) := by
  have hf := foldl_enqueue_frame endingTracks (clearQueue c).2 now
  refine ⟨rfl, rfl, rfl, rfl, rfl, rfl, rfl, rfl, rfl, rfl, rfl, rfl, rfl,
    hf.2.2.1, hf.2.2.2.1, hf.2.1, hf.2.2.2.2.1, hf.2.2.2.2.2.2.2.1,
    hf.2.2.2.2.2.2.2.2.1, hf.2.2.2.2.2.2.2.2.2.1, ?_⟩
  have h1 := hf.1
  simpa using h1

theorem playNextLocked_proj_cons (c : PBController) (now : Int)
    (qt2 : QueuedTrack) (rest : List QueuedTrack) (hq : c.queue = qt2 :: rest) :
    ((playNextLocked c now).1.played =
      (match c.currentTrack with
       | some cur => c.played ++ [cur]
       | none => c.played)) ∧
    ((playNextLocked c now).1.currentTrack = some qt2) ∧
    ((playNextLocked c now).1.queue = rest) := by
  simp only [playNextLocked, hq]
  by_cases hd : c.config.notificationDelay > 0
  · simp only [if_pos hd]
    exact ⟨(checkDepletionLocked_frame _ _).2.1,
      (checkDepletionLocked_frame _ _).2.2.1,
      (checkDepletionLocked_frame _ _).1⟩
  · simp only [if_neg hd]
    exact ⟨(checkDepletionLocked_frame _ _).2.1,
      (checkDepletionLocked_frame _ _).2.2.1,
      (checkDepletionLocked_frame _ _).1⟩

/-- **C9.** For every Skip of a currently playing track the played history is
left unchanged — the skipped track is not appended to played, unlike a
natural track end, which appends the ended track — so after Skip
`GetAllTracks` is exactly the old played history plus the old queue (the
skipped current track is gone), and a new request for the same track passes
the DuplicateTrack filter provided no other played/queued track is a
duplicate of it. -/
theorem skip_leaves_history_unchanged (c : PBController) (qt : QueuedTrack)
    (now : Int) (hcur : c.currentTrack = some qt) :
    ((skip c now).1.played = c.played) ∧
    (getAllTracks (skip c now).1 = c.played ++ c.queue) ∧
    ((onTrackEndLocked c now).1.played = c.played ++ [qt]) ∧
    ((∀ q ∈ c.played ++ c.queue, ¬ dupHit q qt.track) →
      duplicateTrackCheck (skip c now).1 qt.track = FResult.acceptR) := by
  have hskip : ((skip c now).1.played = c.played) ∧
      (getAllTracks (skip c now).1 = c.played ++ c.queue) := by
    simp only [skip, hcur]
    rcases hq : c.queue with _ | ⟨qt2, rest⟩
    · constructor
      · simp only [playNextLocked, hq]
      · simp only [playNextLocked, hq, getAllTracks]
        simp
    · have hp := playNextLocked_proj_cons
        { c with queue := qt2 :: rest, timerCancel := none,
                 notificationDelayTimerCancel := none,
                 currentTrack := none, state := PBState.idle,
                 pausedAt := none, pausedElapsed := 0,
                 notificationTime := none }
        now qt2 rest rfl
      refine ⟨hp.1, ?_⟩
      simp only [getAllTracks, hp.1, hp.2.1, hp.2.2]
      simp [List.append_assoc]
  have honend : (onTrackEndLocked c now).1.played = c.played ++ [qt] := by
    simp only [onTrackEndLocked, hcur]
    rcases hq : c.queue with _ | ⟨qt2, rest⟩
    · simp only [playNextLocked, hq]
    · have hp := playNextLocked_proj_cons
        { c with queue := qt2 :: rest, timerCancel := none,
                 played := c.played ++ [qt],
                 currentTrack := none, pausedAt := none, pausedElapsed := 0 }
        now qt2 rest rfl
      exact hp.1
  refine ⟨hskip.1, hskip.2, honend, ?_⟩
  intro hno
  show duplicateTrackLoop qt.track (getAllTracks (skip c now).1) =
    FResult.acceptR
  rw [hskip.2]
  exact (duplicateTrackLoop_accept_iff _ _).mpr hno

/-- Witness for C9: skipping "Yesterday" (with "Zed" in the history and an
empty queue) leaves the played history at `["Zed"]`, and a fresh request for
"Yesterday" then passes the duplicate filter. -/
theorem skip_leaves_history_unchanged_witness :
    ((skip cSample 0).1.played = cSample.played) ∧
    duplicateTrackCheck (skip cSample 0).1 trkYesterday = FResult.acceptR := by
  have h := skip_leaves_history_unchanged cSample
    ⟨trkYesterday, reqSample, 0⟩ 0 rfl
  exact ⟨h.1, h.2.2.2 (by decide)⟩

/-! ## C2: the INITIAL_STATE subscription protocol -/

theorem subRun_append (l1 l2 : List SubAction) (st : SubProtoState) :
    subRun st (l1 ++ l2) = subRun (subRun st l1) l2 := by
  induction l1 generalizing st with
  | nil => rfl
  | cons a rest ih => simpa [subRun] using ih (subStep st a)

theorem subRun_broadcasts_unregistered (ts : List NotifType)
    (st : SubProtoState) (h : st.registered = false) :
    subRun st (ts.map SubAction.broadcastA) =
      { st with seqCounter := st.seqCounter + ts.length } := by
  induction ts generalizing st with
  | nil => simp [subRun]
  | cons t rest ih =>
    simp only [List.map_cons, subRun, subStep, h, Bool.false_eq_true, if_false]
    rw [ih _ rfl]
    congr 1
    simp only [List.length_cons]
    omega

theorem subRun_broadcasts_buffered (ts : List NotifType) (st : SubProtoState)
    (hreg : st.registered = true) (hrdy : st.ready = false) :
    subRun st (ts.map SubAction.broadcastA) =
      { st with seqCounter := st.seqCounter + ts.length,
                buffer := st.buffer ++
                  ts.zip (List.range' (st.seqCounter + 1) ts.length) } := by
  induction ts generalizing st with
  | nil => simp [subRun]
  | cons t rest ih =>
    simp only [List.map_cons, subRun, subStep, hreg, hrdy, if_true,
      Bool.false_eq_true, if_false]
    rw [ih _ rfl rfl]
    congr 1
    · simp only [List.length_cons]
      omega
    · simp only [List.length_cons, List.range'_succ, List.zip_cons_cons]
      rw [List.append_assoc]
      rfl

theorem subRun_broadcasts_direct (ts : List NotifType) (st : SubProtoState)
    (hreg : st.registered = true) (hrdy : st.ready = true) :
    subRun st (ts.map SubAction.broadcastA) =
      { st with seqCounter := st.seqCounter + ts.length,
                delivered := st.delivered ++
                  ts.zip (List.range' (st.seqCounter + 1) ts.length) } := by
  induction ts generalizing st with
  | nil => simp [subRun]
  | cons t rest ih =>
    simp only [List.map_cons, subRun, subStep, hreg, hrdy, if_true]
    rw [ih _ rfl rfl]
    congr 1
    · simp only [List.length_cons]
      omega
    · simp only [List.length_cons, List.range'_succ, List.zip_cons_cons]
      rw [List.append_assoc]
      rfl

theorem range'_glue (s m n : Nat) :
    List.range' s m ++ List.range' (s + m) n = List.range' s (m + n) := by
  have h := List.range'_append s m n 1
  rw [one_mul] at h
  rw [h, Nat.add_comm]

theorem zip_range'_append (a b : List NotifType) (s : Nat) :
    a.zip (List.range' s a.length) ++
      b.zip (List.range' (s + a.length) b.length) =
    (a ++ b).zip (List.range' s (a.length + b.length)) := by
  rw [← range'_glue s a.length b.length,
    List.zip_append (by rw [List.length_range'])]

/-- **C2.** For every subscriber of `SubscribeNotifications` (the buffering
protocol), for every interleaving of concurrent broadcasts with the
subscriber's setup steps: the first notification delivered on its stream is
the INITIAL_STATE with the sequence number allocated at Subscribe time, no
delivered notification carries a smaller sequence number, and every
broadcast after the subscription was accepted is delivered, in broadcast
order with consecutive sequence numbers — broadcasts arriving during setup
are buffered and flushed after INITIAL_STATE, not lost. -/
theorem subscription_initial_state_protocol (c0 : Nat)
    (pre mid1 mid2 post : List NotifType) :
    ((subRun (subProtoInit c0) (subscribeTrace pre mid1 mid2 post)).delivered =
      (NotifType.initialState, c0 + pre.length + 1) ::
        (mid1 ++ mid2 ++ post).zip
          (List.range' (c0 + pre.length + 1 + 1)
            (mid1.length + mid2.length + post.length))) ∧
    ((subRun (subProtoInit c0)
        (subscribeTrace pre mid1 mid2 post)).delivered.head? =
      some (NotifType.initialState, c0 + pre.length + 1)) ∧
    (∀ pr ∈ (subRun (subProtoInit c0)
        (subscribeTrace pre mid1 mid2 post)).delivered,
      c0 + pre.length + 1 ≤ pr.2) := by
  have hmain : (subRun (subProtoInit c0)
      (subscribeTrace pre mid1 mid2 post)).delivered =
      (NotifType.initialState, c0 + pre.length + 1) ::
        (mid1 ++ mid2 ++ post).zip
          (List.range' (c0 + pre.length + 1 + 1)
            (mid1.length + mid2.length + post.length)) := by
    have h1 : subRun (subProtoInit c0) (pre.map SubAction.broadcastA) =
        subProtoInit (c0 + pre.length) :=
      subRun_broadcasts_unregistered pre (subProtoInit c0) rfl
    have h2 : subRun (subProtoInit c0)
        (pre.map SubAction.broadcastA ++ [SubAction.subscribeA]) =
        (⟨c0 + pre.length + 1, true, some (c0 + pre.length + 1), false,
          [], []⟩ : SubProtoState) := by
      rw [subRun_append, h1]
      rfl
    have h3 : subRun (subProtoInit c0)
        ((pre.map SubAction.broadcastA ++ [SubAction.subscribeA]) ++
          mid1.map SubAction.broadcastA) =
        (⟨c0 + pre.length + 1 + mid1.length, true,
          some (c0 + pre.length + 1), false,
          mid1.zip (List.range' (c0 + pre.length + 1 + 1) mid1.length),
          []⟩ : SubProtoState) := by
      rw [subRun_append, h2,
        subRun_broadcasts_buffered mid1 _ rfl rfl]
      rfl
    have h4 : subRun (subProtoInit c0)
        (((pre.map SubAction.broadcastA ++ [SubAction.subscribeA]) ++
          mid1.map SubAction.broadcastA) ++ [SubAction.sendInitialA]) =
        (⟨c0 + pre.length + 1 + mid1.length, true,
          some (c0 + pre.length + 1), false,
          mid1.zip (List.range' (c0 + pre.length + 1 + 1) mid1.length),
          [(NotifType.initialState, c0 + pre.length + 1)]⟩ : SubProtoState) := by
      rw [subRun_append, h3]
      rfl
    have h5 : subRun (subProtoInit c0)
        ((((pre.map SubAction.broadcastA ++ [SubAction.subscribeA]) ++
          mid1.map SubAction.broadcastA) ++ [SubAction.sendInitialA]) ++
          mid2.map SubAction.broadcastA) =
        (⟨c0 + pre.length + 1 + mid1.length + mid2.length, true,
          some (c0 + pre.length + 1), false,
          mid1.zip (List.range' (c0 + pre.length + 1 + 1) mid1.length) ++
            mid2.zip (List.range'
              (c0 + pre.length + 1 + mid1.length + 1) mid2.length),
          [(NotifType.initialState, c0 + pre.length + 1)]⟩ : SubProtoState) := by
      rw [subRun_append, h4,
        subRun_broadcasts_buffered mid2 _ rfl rfl]
    have h6 : subRun (subProtoInit c0)
        (((((pre.map SubAction.broadcastA ++ [SubAction.subscribeA]) ++
          mid1.map SubAction.broadcastA) ++ [SubAction.sendInitialA]) ++
          mid2.map SubAction.broadcastA) ++ [SubAction.flushA]) =
        (⟨c0 + pre.length + 1 + mid1.length + mid2.length, true,
          some (c0 + pre.length + 1), true, [],
          (NotifType.initialState, c0 + pre.length + 1) ::
            (mid1.zip (List.range' (c0 + pre.length + 1 + 1) mid1.length) ++
              mid2.zip (List.range'
                (c0 + pre.length + 1 + mid1.length + 1) mid2.length))⟩ :
          SubProtoState) := by
      rw [subRun_append, h5]
      rfl
    have h7 : subRun (subProtoInit c0) (subscribeTrace pre mid1 mid2 post) =
        (⟨c0 + pre.length + 1 + mid1.length + mid2.length + post.length, true,
          some (c0 + pre.length + 1), true, [],
          ((NotifType.initialState, c0 + pre.length + 1) ::
            (mid1.zip (List.range' (c0 + pre.length + 1 + 1) mid1.length) ++
              mid2.zip (List.range'
                (c0 + pre.length + 1 + mid1.length + 1) mid2.length))) ++
            post.zip (List.range'
              (c0 + pre.length + 1 + mid1.length + mid2.length + 1)
              post.length)⟩ : SubProtoState) := by
      have hshape : subscribeTrace pre mid1 mid2 post =
          (((((pre.map SubAction.broadcastA ++ [SubAction.subscribeA]) ++
            mid1.map SubAction.broadcastA) ++ [SubAction.sendInitialA]) ++
            mid2.map SubAction.broadcastA) ++ [SubAction.flushA]) ++
            post.map SubAction.broadcastA := by
        simp [subscribeTrace, List.append_assoc]
      rw [hshape, subRun_append, h6,
        subRun_broadcasts_direct post _ rfl rfl]
    rw [h7]
    show (NotifType.initialState, c0 + pre.length + 1) ::
        (mid1.zip (List.range' (c0 + pre.length + 1 + 1) mid1.length) ++
          mid2.zip (List.range'
            (c0 + pre.length + 1 + mid1.length + 1) mid2.length)) ++
        post.zip (List.range'
          (c0 + pre.length + 1 + mid1.length + mid2.length + 1)
          post.length) = _
    rw [List.cons_append]
    congr 1
    rw [show c0 + pre.length + 1 + mid1.length + 1 =
      (c0 + pre.length + 1 + 1) + mid1.length by omega]
    rw [zip_range'_append mid1 mid2 (c0 + pre.length + 1 + 1)]
    rw [show c0 + pre.length + 1 + mid1.length + mid2.length + 1 =
      (c0 + pre.length + 1 + 1) + (mid1 ++ mid2).length by
        rw [List.length_append]; omega]
    rw [show mid1.length + mid2.length = (mid1 ++ mid2).length by
      rw [List.length_append]]
    rw [zip_range'_append (mid1 ++ mid2) post (c0 + pre.length + 1 + 1)]
  refine ⟨hmain, ?_, ?_⟩
  · rw [hmain]
    rfl
  · intro pr hpr
    rw [hmain] at hpr
    rcases List.mem_cons.mp hpr with hpr | hpr
    · subst hpr
      exact le_refl _
    · obtain ⟨-, h2⟩ := List.of_mem_zip hpr
      have := (List.mem_range'_1.mp h2).1
      omega

/-- Witness for C2: with one broadcast before subscribe and one during setup,
the first delivered notification is the INITIAL_STATE with sequence number 2,
and every delivered sequence number is at least 2. -/
theorem subscription_initial_state_protocol_witness :
    ((subRun (subProtoInit 0)
      (subscribeTrace [NotifType.changeState] [NotifType.changeTrack] []
        [NotifType.changeState])).delivered.head? =
      some (NotifType.initialState, 2)) ∧
    (∀ pr ∈ (subRun (subProtoInit 0)
      (subscribeTrace [NotifType.changeState] [NotifType.changeTrack] []
        [NotifType.changeState])).delivered, 2 ≤ pr.2) :=
  ⟨(subscription_initial_state_protocol 0 [NotifType.changeState]
      [NotifType.changeTrack] [] [NotifType.changeState]).2.1,
    (subscription_initial_state_protocol 0 [NotifType.changeState]
      [NotifType.changeTrack] [] [NotifType.changeState]).2.2⟩

/-- Spec §8 scenario 4, concretely: two broadcasts before subscribe consume
sequence numbers 1 and 2; the INITIAL_STATE gets number 3; a broadcast during
subscription setup gets number 4 and is delivered strictly after
INITIAL_STATE. -/
theorem late_subscription_scenario :
    (subRun (subProtoInit 0)
      (subscribeTrace [NotifType.changeState, NotifType.changeTrack]
        [] [NotifType.changeTrack] [])).delivered =
      [(NotifType.initialState, 3), (NotifType.changeTrack, 4)] := by decide

/-! ## C7: RequestTrack outcomes -/

theorem chainExecute_first_reject (filters : List AbsFilter)
    (req : TrackRequest) (t : Track) (l : ListenerSession)
    (rt : RequesterType)
    (h : (chainExecute filters req t l rt).accepted = false) :
    ∃ l1 f l2, filters = l1 ++ f :: l2 ∧ f.appliesTo rt = true ∧
      (f.check req t l).accepted = false ∧
      chainExecute filters req t l rt = f.check req t l ∧
      (∀ g ∈ l1, g.appliesTo rt = true → (g.check req t l).accepted = true) := by
  induction filters with
  | nil =>
    exact absurd h (by simp [chainExecute, FResult.acceptR])
  | cons f rest ih =>
    by_cases ha : f.appliesTo rt
    · by_cases hr : (f.check req t l).accepted
      · have hstep : chainExecute (f :: rest) req t l rt =
            chainExecute rest req t l rt := by
          simp [chainExecute, ha, hr]
        rw [hstep] at h
        obtain ⟨l1, g, l2, heq, hga, hgr, hres, hprev⟩ := ih h
        refine ⟨f :: l1, g, l2, by rw [heq, List.cons_append], hga, hgr,
          by rw [hstep, hres], ?_⟩
        intro g2 hg2 hg2a
        rcases List.mem_cons.mp hg2 with hg2 | hg2
        · subst hg2
          exact hr
        · exact hprev g2 hg2 hg2a
      · have hstep : chainExecute (f :: rest) req t l rt = f.check req t l := by
          simp [chainExecute, ha, hr]
        exact ⟨[], f, rest, rfl, ha, by simpa using hr, hstep,
          by intro g hg; cases hg⟩
    · have hstep : chainExecute (f :: rest) req t l rt =
          chainExecute rest req t l rt := by
        simp [chainExecute, ha]
      rw [hstep] at h
      obtain ⟨l1, g, l2, heq, hga, hgr, hres, hprev⟩ := ih h
      refine ⟨f :: l1, g, l2, by rw [heq, List.cons_append], hga, hgr,
        by rw [hstep, hres], ?_⟩
      intro g2 hg2 hg2a
      rcases List.mem_cons.mp hg2 with hg2 | hg2
      · subst hg2
        exact absurd hg2a (by simp [ha])
      · exact hprev g2 hg2 hg2a

theorem regGet_increment (reg : List (String × ListenerSession))
    (lid : String) (now : Int) (s : ListenerSession)
    (h : regGet reg lid = some s) :
    regGet (regIncrementPending reg lid now) lid =
      some (incrementPendingTracks s now) := by
  induction reg with
  | nil => exact absurd h (by simp [regGet])
  | cons p rest ih =>
    cases hk : p.1 == lid with
    | true =>
      have hfind : regGet (p :: rest) lid = some p.2 := by
        simp [regGet, List.find?_cons, hk]
      rw [hfind] at h
      have hs : p.2 = s := by
        injection h
      have hinc : regGet (regIncrementPending (p :: rest) lid now) lid =
          some (incrementPendingTracks p.2 now) := by
        simp only [regIncrementPending, List.map_cons, if_pos hk]
        simp only [regGet, List.find?_cons, hk]
      rw [hinc, hs]
    | false =>
      have hfind : regGet (p :: rest) lid = regGet rest lid := by
        simp [regGet, List.find?_cons, hk]
      rw [hfind] at h
      have hk2 : ¬ p.1 = lid := by
        simpa using hk
      have hmap : regGet (regIncrementPending (p :: rest) lid now) lid =
          regGet (regIncrementPending rest lid now) lid := by
        simp [regGet, regIncrementPending, List.find?_cons, hk, hk2]
      rw [hmap]
      exact ih h

/-- **C7.** `RequestTrack` returns `(false, "invalid_listener", nil)` when
the listener id is unknown; `(false, "track_not_found", nil)` when the
catalog track fetch fails; `(false, code, nil)` with the first rejecting
applicable filter's code when the USER filter chain rejects; and
`(true, "", nil)` on acceptance — in which case, and only in which case, the
track is enqueued (appended to the controller queue) and the listener's
pending count is incremented.  The error return value is always `nil`:
predicate rejections are never reported through it. -/
theorem request_track_outcomes (reg : List (String × ListenerSession))
    (fetched : Option Track) (filters : List AbsFilter) (c : PBController)
    (recent : List String) (maxRecent : Nat) (lid tid : String) (now : Int) :
    ((regGet reg lid = none →
      requestTrack reg fetched filters c recent maxRecent lid tid now =
        ⟨false, "invalid_listener", none, c, reg, recent⟩)) ∧
    (∀ s, regGet reg lid = some s → fetched = none →
      requestTrack reg fetched filters c recent maxRecent lid tid now =
        ⟨false, "track_not_found", none, c, reg, recent⟩) ∧
    (∀ s t, regGet reg lid = some s → fetched = some t →
      (chainExecute filters ⟨lid, tid⟩ t s RequesterType.user).accepted =
        false →
      (requestTrack reg fetched filters c recent maxRecent lid tid now =
        ⟨false,
          (chainExecute filters ⟨lid, tid⟩ t s RequesterType.user).code,
          none, c, reg, recent⟩ ∧
        ∃ l1 f l2, filters = l1 ++ f :: l2 ∧
          f.appliesTo RequesterType.user = true ∧
          (f.check ⟨lid, tid⟩ t s).accepted = false ∧
          (requestTrack reg fetched filters c recent maxRecent lid tid
            now).code = (f.check ⟨lid, tid⟩ t s).code ∧
          (∀ g ∈ l1, g.appliesTo RequesterType.user = true →
            (g.check ⟨lid, tid⟩ t s).accepted = true))) ∧
    (∀ s t, regGet reg lid = some s → fetched = some t →
      (chainExecute filters ⟨lid, tid⟩ t s RequesterType.user).accepted =
        true →
      ((requestTrack reg fetched filters c recent maxRecent lid tid
          now).accepted = true ∧
        (requestTrack reg fetched filters c recent maxRecent lid tid
          now).code = "" ∧
        (requestTrack reg fetched filters c recent maxRecent lid tid
          now).controller.queue =
          c.queue ++ [⟨t, ⟨s.id, s.displayName, s.externalUserID,
            RequesterType.user⟩, now⟩] ∧
        regGet (requestTrack reg fetched filters c recent maxRecent lid tid
          now).registry lid = some (incrementPendingTracks s now))) ∧
    ((requestTrack reg fetched filters c recent maxRecent lid tid
      now).errv = none) := by
  refine ⟨?_, ?_, ?_, ?_, ?_⟩
  · intro h
    simp [requestTrack, h]
  · intro s hs hf
    simp [requestTrack, hs, hf]
  · intro s t hs hf hrej
    constructor
    · simp [requestTrack, hs, hf, hrej]
    · obtain ⟨l1, f, l2, heq, hfa, hfr, hres, hprev⟩ :=
        chainExecute_first_reject filters ⟨lid, tid⟩ t s RequesterType.user
          hrej
      refine ⟨l1, f, l2, heq, hfa, hfr, ?_, hprev⟩
      have : (requestTrack reg fetched filters c recent maxRecent lid tid
          now).code =
          (chainExecute filters ⟨lid, tid⟩ t s RequesterType.user).code := by
        simp [requestTrack, hs, hf, hrej]
      rw [this, hres]
  · intro s t hs hf hacc
    have hrt : requestTrack reg fetched filters c recent maxRecent lid tid
        now =
        ⟨true, "", none,
          (enqueue c ⟨t, ⟨s.id, s.displayName, s.externalUserID,
            RequesterType.user⟩, now⟩ now).1,
          regIncrementPending reg lid now,
          addRecentArtistsLocked recent maxRecent t.artists⟩ := by
      simp [requestTrack, hs, hf, hacc]
    rw [hrt]
    exact ⟨rfl, rfl, (enqueue_frame c _ now).1, regGet_increment reg lid now s hs⟩
  · rcases hg : regGet reg lid with _ | s
    · simp [requestTrack, hg]
    · rcases hf : fetched with _ | t
      · simp [requestTrack, hg, hf]
      · by_cases hacc : (chainExecute filters ⟨lid, tid⟩ t s
            RequesterType.user).accepted
        · simp [requestTrack, hg, hf, hacc]
        · simp [requestTrack, hg, hf, hacc]

/-- Witness for C7: with listener "L1" registered, track "Yesterday" fetched
and an empty filter chain (which accepts), the request is accepted with empty
code, the track is enqueued and the pending count goes to 1; and with an
unknown listener the request is rejected `invalid_listener`. -/
theorem request_track_outcomes_witness :
    ((requestTrack [("L1", newListenerSession "L1" "Ann" "" false 0)]
        (some trkYesterday) [] (newController pbCfgSample) [] 3
        "L1" "A" 7).accepted = true) ∧
    (regGet (requestTrack [("L1", newListenerSession "L1" "Ann" "" false 0)]
        (some trkYesterday) [] (newController pbCfgSample) [] 3
        "L1" "A" 7).registry "L1" =
      some (incrementPendingTracks (newListenerSession "L1" "Ann" "" false 0)
        7)) ∧
    (requestTrack [("L1", newListenerSession "L1" "Ann" "" false 0)]
        (some trkYesterday) [] (newController pbCfgSample) [] 3
        "L2" "A" 7).code = "invalid_listener" := by
  have h := request_track_outcomes
    [("L1", newListenerSession "L1" "Ann" "" false 0)] (some trkYesterday)
    [] (newController pbCfgSample) [] 3 "L1" "A" 7
  have h2 := request_track_outcomes
    [("L1", newListenerSession "L1" "Ann" "" false 0)] (some trkYesterday)
    [] (newController pbCfgSample) [] 3 "L2" "A" 7
  have hacc := h.2.2.2.1 (newListenerSession "L1" "Ann" "" false 0)
    trkYesterday (by decide) rfl rfl
  refine ⟨hacc.1, hacc.2.2.2, ?_⟩
  rw [h2.1 (by decide)]

/-! ## C6: the depletion discipline -/

theorem totalRemaining_timer_irrelevant (c : PBController) (now : Int) :
    totalRemaining { c with depletionTimerCancel := none } now =
      totalRemaining c now := rfl

theorem depletionThreshold_timer_irrelevant (c : PBController) :
    depletionThreshold { c with depletionTimerCancel := none } =
      depletionThreshold c := rfl

theorem checkDepletion_events_eq (c : PBController) (now : Int) :
    ((checkDepletionLocked c now).2 =
      (if c.depletionNotified = false ∧ 0 < totalRemaining c now ∧
          totalRemaining c now < depletionThreshold c then
        [{ etype := PBEventType.queueDepleting, track := c.currentTrack,
           state := c.state }]
      else [])) ∧
    ((checkDepletionLocked c now).1.depletionNotified = true ↔
      (c.depletionNotified = true ∨
        (0 < totalRemaining c now ∧
          totalRemaining c now < depletionThreshold c))) := by
  simp only [checkDepletionLocked, totalRemaining_timer_irrelevant,
    depletionThreshold_timer_irrelevant]
  by_cases hn : c.depletionNotified
  · rw [if_pos hn]
    constructor
    · rw [if_neg (by simp [hn])]
    · simp [hn]
  · rw [if_neg hn]
    simp only [Bool.not_eq_true] at hn
    by_cases hc : totalRemaining c now < depletionThreshold c ∧
        totalRemaining c now > 0
    · rw [if_pos hc]
      constructor
      · rw [if_pos ⟨hn, hc.2, hc.1⟩]
      · simp [hc.1, hc.2]
    · rw [if_neg hc]
      have hrhs : ¬ (c.depletionNotified = false ∧ 0 < totalRemaining c now ∧
          totalRemaining c now < depletionThreshold c) := by
        intro h
        exact hc ⟨h.2.2, h.2.1⟩
      by_cases hsched : totalRemaining c now > depletionThreshold c ∧
          c.state = PBState.playing
      · rw [if_pos hsched]
        constructor
        · rw [if_neg hrhs]
        · simp only [hn]
          constructor
          · intro h
            exact absurd h (by simp)
          · rintro (h | h)
            · exact absurd h (by simp)
            · exact absurd ⟨h.2, h.1⟩ hc
      · rw [if_neg hsched]
        constructor
        · rw [if_neg hrhs]
        · simp only [hn]
          constructor
          · intro h
            exact absurd h (by simp)
          · rintro (h | h)
            · exact absurd h (by simp)
            · exact absurd ⟨h.2, h.1⟩ hc

theorem checkDepletion_notified_absorb (c : PBController) (now : Int)
    (hn : c.depletionNotified = true) :
    checkDepletionLocked c now = (c, []) := by
  simp [checkDepletionLocked, hn]

theorem countDepleting_append (a b : List PBEvent) :
    countDepleting (a ++ b) = countDepleting a + countDepleting b := by
  simp [countDepleting, List.filter_append]

theorem depRun_notified_silent (ops : List DepOp) (c : PBController)
    (hops : ∀ op ∈ ops, isEnqueueOp op = false)
    (hn : c.depletionNotified = true) :
    (depRun c ops).2 = [] ∧ (depRun c ops).1 = c := by
  induction ops generalizing c with
  | nil => exact ⟨rfl, rfl⟩
  | cons op rest ih =>
    cases op with
    | enqOp qt now =>
      exact absurd (hops _ (List.mem_cons_self _ _)) (by simp [isEnqueueOp])
    | enqMultiOp qts now =>
      exact absurd (hops _ (List.mem_cons_self _ _)) (by simp [isEnqueueOp])
    | checkOp now =>
      have habs := checkDepletion_notified_absorb c now hn
      have hrest := ih c (fun op hop => hops op (List.mem_cons_of_mem _ hop)) hn
      simp [depRun, depStep, habs, hrest.1, hrest.2]

theorem depRun_no_enqueue_at_most_one (ops : List DepOp) (c : PBController)
    (hops : ∀ op ∈ ops, isEnqueueOp op = false) :
    countDepleting (depRun c ops).2 ≤ 1 := by
  induction ops generalizing c with
  | nil => simp [depRun, countDepleting]
  | cons op rest ih =>
    have hrest : ∀ op ∈ rest, isEnqueueOp op = false :=
      fun op hop => hops op (List.mem_cons_of_mem _ hop)
    cases op with
    | enqOp qt now =>
      exact absurd (hops _ (List.mem_cons_self _ _)) (by simp [isEnqueueOp])
    | enqMultiOp qts now =>
      exact absurd (hops _ (List.mem_cons_self _ _)) (by simp [isEnqueueOp])
    | checkOp now =>
      simp only [depRun, depStep]
      rw [countDepleting_append]
      have hev := (checkDepletion_events_eq c now).1
      by_cases hcond : c.depletionNotified = false ∧ 0 < totalRemaining c now ∧
          totalRemaining c now < depletionThreshold c
      · have hflag : (checkDepletionLocked c now).1.depletionNotified = true :=
          (checkDepletion_events_eq c now).2.mpr (Or.inr hcond.2)
        have hzero := depRun_notified_silent rest _ hrest hflag
        rw [hev, if_pos hcond, hzero.1]
        simp [countDepleting]
      · rw [hev, if_neg hcond]
        have := ih (checkDepletionLocked c now).1 hrest
        simpa [countDepleting] using this

/-- **C6.** The playback controller emits `QueueDepleting` exactly when
`0 < total_remaining < threshold` (where `total_remaining` is the current
track's remaining time plus the queued durations) and no `QueueDepleting` has
been emitted since the last enqueue (the `depletionNotified` flag): the check
emits exactly that event iff the flag is clear and the dip condition holds;
`Enqueue` and `EnqueueMultiple` reset the flag first, so their emission
depends only on the dip condition of the enlarged queue; nothing is emitted
when `total_remaining = 0` (or negative) or `total_remaining ≥ threshold`;
and over any sequence of depletion-relevant operations containing no enqueue,
at most one `QueueDepleting` is emitted. -/
theorem depletion_discipline (c : PBController) (qt : QueuedTrack)
    (qts : List QueuedTrack) (now : Int) :
    ((checkDepletionLocked c now).2 =
      (if c.depletionNotified = false ∧ 0 < totalRemaining c now ∧
          totalRemaining c now < depletionThreshold c then
        [{ etype := PBEventType.queueDepleting, track := c.currentTrack,
           state := c.state }]
      else [])) ∧
    ((enqueue c qt now).2 =
      (if 0 < totalRemaining { c with queue := c.queue ++ [qt] } now ∧
          totalRemaining { c with queue := c.queue ++ [qt] } now <
            depletionThreshold c then
        [{ etype := PBEventType.queueDepleting, track := c.currentTrack,
           state := c.state }]
      else [])) ∧
    ((enqueueMultiple c qts now).2 =
      (if 0 < totalRemaining { c with queue := c.queue ++ qts } now ∧
          totalRemaining { c with queue := c.queue ++ qts } now <
            depletionThreshold c then
        [{ etype := PBEventType.queueDepleting, track := c.currentTrack,
           state := c.state }]
      else [])) ∧
    (¬ (0 < totalRemaining c now ∧
        totalRemaining c now < depletionThreshold c) →
      countDepleting (checkDepletionLocked c now).2 = 0) ∧
    (∀ ops : List DepOp, (∀ op ∈ ops, isEnqueueOp op = false) →
      countDepleting (depRun c ops).2 ≤ 1) := by
  refine ⟨(checkDepletion_events_eq c now).1, ?_, ?_, ?_,
    fun ops h => depRun_no_enqueue_at_most_one ops c h⟩
  · have h := (checkDepletion_events_eq
      { c with queue := c.queue ++ [qt], depletionNotified := false } now).1
    rw [show (enqueue c qt now).2 = (checkDepletionLocked
      { c with queue := c.queue ++ [qt], depletionNotified := false } now).2
      from rfl, h]
    exact if_congr (Iff.intro (fun x => x.2) (fun x => ⟨rfl, x⟩)) rfl rfl
  · have h := (checkDepletion_events_eq
      { c with queue := c.queue ++ qts, depletionNotified := false } now).1
    rw [show (enqueueMultiple c qts now).2 = (checkDepletionLocked
      { c with queue := c.queue ++ qts, depletionNotified := false } now).2
      from rfl, h]
    exact if_congr (Iff.intro (fun x => x.2) (fun x => ⟨rfl, x⟩)) rfl rfl
  · intro hnot
    rw [(checkDepletion_events_eq c now).1,
      if_neg (fun h => hnot h.2)]
    rfl

/-- Witness for C6: from a fresh controller whose queue holds one 20-second
track (threshold 30 s, nothing playing), a first re-check emits exactly one
`QueueDepleting` and a second re-check emits nothing: one event per dip. -/
theorem depletion_discipline_witness :
    countDepleting (depRun
      { newController pbCfgSample with
          queue := [⟨trkShort, reqSample, 0⟩] }
      [DepOp.checkOp 0, DepOp.checkOp 5]).2 ≤ 1 ∧
    countDepleting (depRun
      { newController pbCfgSample with
          queue := [⟨trkShort, reqSample, 0⟩] }
      [DepOp.checkOp 0, DepOp.checkOp 5]).2 = 1 := by
  constructor
  · exact (depletion_discipline
      { newController pbCfgSample with queue := [⟨trkShort, reqSample, 0⟩] }
      ⟨trkShort, reqSample, 0⟩ [] 0).2.2.2.2
      [DepOp.checkOp 0, DepOp.checkOp 5] (by decide)
  · decide

theorem sessionRun_append (l1 l2 : List SessionOp) (s : SessState) :
    sessionRun s (l1 ++ l2) = sessionRun (sessionRun s l1) l2 := by
  induction l1 generalizing s with
  | nil => rfl
  | cons op rest ih => simpa [sessionRun] using ih (sessionStep s op)

theorem sessionRun_append_ok (l1 l2 : List SessionOp) (s : SessState)
    (h : startsOnlyFromWaiting s (l1 ++ l2) = true) :
    startsOnlyFromWaiting s l1 = true ∧
    startsOnlyFromWaiting (sessionRun s l1) l2 = true := by
  induction l1 generalizing s with
  | nil => exact ⟨rfl, h⟩
  | cons op rest ih =>
    simp only [List.cons_append, startsOnlyFromWaiting, Bool.and_eq_true] at h ⊢
    have h2 := ih (sessionStep s op) h.2
    exact ⟨⟨h.1, h2.1⟩, h2.2⟩

theorem sessionRun_inv (l : List SessionOp) (s : SessState)
    (hinv : sessInv s) (hok : startsOnlyFromWaiting s l = true) :
    sessInv (sessionRun s l) :=
  (sessionRun_mono l s hinv hok).2.1

theorem phase_eq_terminated_of_idx (s : SessState) (h : 3 ≤ s.phase.idx) :
    s.phase = SPhase.terminated := by
  cases hp : s.phase <;> simp_all [SPhase.idx]

/-- Counterexample to C4 as stated: `Manager.Start` has no phase guard, so
the operation sequence `[Stop, Start]` from the initial (waiting) state first
terminates the session and then resets it to active: the phase regresses from
terminated to active, and the phase trace `[0, 3, 1]` is not monotone. -/
theorem session_phase_monotone_counterexample :
    (sessionRun sessStateNew [SessionOp.stop]).phase = SPhase.terminated ∧
    (sessionRun sessStateNew [SessionOp.stop, SessionOp.start]).phase =
      SPhase.active ∧
    phaseTrace sessStateNew [SessionOp.stop, SessionOp.start] = [0, 3, 1] ∧
    ¬ List.Chain' (· ≤ ·)
        (phaseTrace sessStateNew [SessionOp.stop, SessionOp.start]) := by
  refine ⟨rfl, rfl, rfl, ?_⟩
  intro h
  rw [show phaseTrace sessStateNew [SessionOp.stop, SessionOp.start] =
    [0, 3, 1] from rfl] at h
  have h2 := (List.chain'_cons.mp h).2
  have h31 := (List.chain'_cons.mp h2).1
  omega

/-- **C4 (amended).** Under every sequence of session-manager operations
(`Start`, `Stop`, `StopImmediate`, the ending transition, queue-empty
termination) from the initial state *in which `Start` is only invoked while
the phase is waiting* (its initialization position — the code's `Start` has no
phase guard, so invoked after a termination it would reset the phase to
active), the session phase never regresses along
waiting < active < ending < terminated, after reaching terminated no further
phase change occurs, and in every reachable state accepting = Accepting
implies phase = active. -/
theorem session_phase_monotone (ops : List SessionOp)
    (hok : startsOnlyFromWaiting sessStateNew ops = true) :
    List.Chain' (· ≤ ·) (phaseTrace sessStateNew ops) ∧
    (∀ l1 l2, ops = l1 ++ l2 →
      (sessionRun sessStateNew l1).phase = SPhase.terminated →
      (sessionRun sessStateNew ops).phase = SPhase.terminated) ∧
    (∀ l1 l2, ops = l1 ++ l2 →
      (sessionRun sessStateNew l1).accepting = AcceptingState.accepting →
      (sessionRun sessStateNew l1).phase = SPhase.active) := by
  have hinv0 : sessInv sessStateNew := by
    intro h
    exact absurd h (by decide)
  refine ⟨(sessionRun_mono ops sessStateNew hinv0 hok).1, ?_, ?_⟩
  · intro l1 l2 hsplit hterm
    subst hsplit
    have hmid := sessionRun_append_ok l1 l2 sessStateNew hok
    have hmono := sessionRun_mono l2 (sessionRun sessStateNew l1)
      (sessionRun_inv l1 sessStateNew hinv0 hmid.1) hmid.2
    rw [sessionRun_append]
    have hle := hmono.2.2
    rw [hterm] at hle
    exact phase_eq_terminated_of_idx _ hle
  · intro l1 l2 hsplit hacc
    subst hsplit
    have hmid := sessionRun_append_ok l1 l2 sessStateNew hok
    exact sessionRun_inv l1 sessStateNew hinv0 hmid.1 hacc

/-- Witness for C4 (amended): the run
`[start, toEnding, onQueueEmpty]` from the initial state keeps `Start` in the
waiting phase, and its phase trace `[0, 1, 2, 3]` is monotone. -/
theorem session_phase_monotone_witness :
    startsOnlyFromWaiting sessStateNew
        [SessionOp.start, SessionOp.toEnding, SessionOp.onQueueEmpty] = true ∧
    List.Chain' (· ≤ ·)
      (phaseTrace sessStateNew
        [SessionOp.start, SessionOp.toEnding, SessionOp.onQueueEmpty]) :=
  ⟨by decide,
    (session_phase_monotone
      [SessionOp.start, SessionOp.toEnding, SessionOp.onQueueEmpty]
      (by decide)).1⟩

end Jukebox
